import Mathlib

/-!
Verification development for the ArduPilot hwdef scraper
(tools/scrape-hwdef.py of the ardugui repository).

The Python source is shallowly embedded: each helper below models one
Python string primitive or one regular expression used by the scraper,
and the parser itself (HwdefParser.parse_board together with
_process_line and the four post-processing passes) is translated into
total Lean functions over a list of already-flattened lines.

Modelling conventions:
* Python strings are Lean Strings; character-level work happens on
  String.data (a List Char).
* Python dicts that are only read through key lookup are association
  lists updated in place by dictInsert (insertion order preserved,
  overwrite keeps the original position, as CPython dicts do).
* Python sets that are only read through membership are Lean lists with
  insertSet; only membership is ever consulted.
* Python int()/float() are pyInt/pyFloat returning Option values; the
  numeric-literal underscore grouping of PEP 515 and the float special
  values inf/infinity/nan are not modelled (no hwdef value uses them),
  and float values are represented exactly as rationals.
* Python exceptions that escape a function are modelled with Option:
  the only reachable raise site in the translated code is the
  IndexError on a bare trailing-whitespace undef line.
* Char.isWhitespace stands for Python str.split() whitespace.
-/

namespace Hwdef

/-- Whitespace tokenizer: accumulates the current (reversed) token in
acc, emitting it at each whitespace run, exactly like Python
str.split() with no separator (empty tokens are never produced). -/
def wsTokensAux : List Char → List Char → List (List Char)
  | [], acc => if acc.isEmpty then [] else [acc.reverse]
  | c :: cs, acc =>
    if c.isWhitespace then
      if acc.isEmpty then wsTokensAux cs [] else acc.reverse :: wsTokensAux cs []
    else wsTokensAux cs (c :: acc)

/-- Python line.split() with no arguments. -/
def pySplit (s : String) : List String :=
  (wsTokensAux s.data []).map (fun l => ⟨l⟩)

/-- Python s.split(None, 1): at most one split, leading whitespace of
the remainder consumed, a whitespace-only remainder dropped. -/
def pySplit1Data (l : List Char) : List (List Char) :=
  let l1 := l.dropWhile Char.isWhitespace
  if l1 = [] then []
  else
    let tok := l1.takeWhile (fun c => !c.isWhitespace)
    let rest := (l1.drop tok.length).dropWhile Char.isWhitespace
    if rest = [] then [tok] else [tok, rest]

/-- Python s.split(None, 1) on a String. -/
def pySplit1 (s : String) : List String :=
  (pySplit1Data s.data).map (fun l => ⟨l⟩)

/-- Python s.strip() on character lists. -/
def stripData (l : List Char) : List Char :=
  ((l.dropWhile Char.isWhitespace).reverse.dropWhile Char.isWhitespace).reverse

/-- Python s.strip(). -/
def pyStrip (s : String) : String := ⟨stripData s.data⟩

/-- Contiguous-sublist test on character lists (Python substring
containment, the in operator on str). -/
def isSubOf : List Char → List Char → Bool
  | n, [] => n.isEmpty
  | n, c :: t => n.isPrefixOf (c :: t) || isSubOf n t

/-- Python sub in hay. -/
def pyContains (hay sub : String) : Bool := isSubOf sub.data hay.data

/-- Python s.startswith(p). -/
def pyStartsWith (s p : String) : Bool := p.data.isPrefixOf s.data

/-- Maximal leading run of ASCII digits. -/
def takeDigits (l : List Char) : List Char := l.takeWhile Char.isDigit

/-- Decimal value of a digit run, as Python int() computes it. -/
def digitsToNat (l : List Char) : Nat :=
  l.foldl (fun n c => 10 * n + (c.toNat - 48)) 0

/-- Model of re.search(r'TIM(\d+)', s).group(1): leftmost occurrence of
TIM followed by at least one digit, maximal digit run captured; a TIM
not followed by a digit is skipped and the search resumes one position
further, as regex search does. -/
def findTimNum : List Char → Option Nat
  | [] => none
  | c :: cs =>
    if c = 'T' ∧ cs.take 2 = ['I', 'M'] then
      let ds := takeDigits (cs.drop 2)
      if ds = [] then findTimNum cs else some (digitsToNat ds)
    else findTimNum cs

/-- Model of re.search(marker + r'(\d+)\)', s).group(1), used for the
PWM(n) and GPIO(n) markers: leftmost occurrence of the marker followed
by at least one digit and a closing parenthesis. -/
def findParenNum (marker : List Char) : List Char → Option Nat
  | [] => none
  | c :: cs =>
    if marker.isPrefixOf (c :: cs) then
      let rest := (c :: cs).drop marker.length
      let ds := takeDigits rest
      if ds ≠ [] ∧ (rest.drop ds.length).take 1 = [')'] then some (digitsToNat ds)
      else findParenNum marker cs
    else findParenNum marker cs

/-- Model of re.search(r'CAN(\d)', s).group(1): leftmost CAN followed
by a single digit. -/
def findCanNum : List Char → Option Nat
  | [] => none
  | c :: cs =>
    if c = 'C' ∧ cs.take 2 = ['A', 'N'] ∧ (cs.drop 2).take 1 ≠ [] ∧
        ((cs.drop 2).take 1).all Char.isDigit then
      some (digitsToNat ((cs.drop 2).take 1))
    else findCanNum cs

/-- Python int(s) on a decimal literal with optional sign and
surrounding whitespace. -/
def pyIntData (l0 : List Char) : Option Int :=
  let core : List Char → Option Int := fun ds =>
    if ds ≠ [] ∧ ds.all Char.isDigit then some (digitsToNat ds : Int) else none
  match stripData l0 with
  | '+' :: ds => core ds
  | '-' :: ds => (core ds).map (fun v => -v)
  | ds => core ds

/-- Python int(s). -/
def pyInt (s : String) : Option Int := pyIntData s.data

/-- Splits at the first character satisfying sep, returning the prefix
and (some remainder) when a separator was found. -/
def splitFirst (sep : Char → Bool) : List Char → (List Char × Option (List Char))
  | [] => ([], none)
  | c :: cs =>
    if sep c then ([], some cs)
    else
      let r := splitFirst sep cs
      (c :: r.1, r.2)

/-- Unsigned part of Python float(): digits, optional fraction,
optional exponent; at least one digit in the mantissa. -/
def parseUnsignedFloat (l : List Char) : Option Rat :=
  let me := splitFirst (fun c => c = 'e' || c = 'E') l
  let ifr := splitFirst (fun c => c = '.') me.1
  let ip := ifr.1
  let fp := (ifr.2).getD []
  if ip.all Char.isDigit ∧ fp.all Char.isDigit ∧ (ip ≠ [] ∨ fp ≠ []) then
    let base : Rat := (digitsToNat ip : Rat) + (digitsToNat fp : Rat) / ((10 : Rat) ^ fp.length)
    match me.2 with
    | none => some base
    | some e =>
      let sds : Int × List Char :=
        match e with
        | '+' :: ds => (1, ds)
        | '-' :: ds => (-1, ds)
        | ds => (1, ds)
      if sds.2 ≠ [] ∧ (sds.2).all Char.isDigit then
        some (base * (10 : Rat) ^ (sds.1 * (digitsToNat sds.2 : Int)))
      else none
  else none

/-- Python float(s) on decimal literals (no inf/nan, see header). -/
def pyFloatData (l0 : List Char) : Option Rat :=
  match stripData l0 with
  | '+' :: r => parseUnsignedFloat r
  | '-' :: r => (parseUnsignedFloat r).map Neg.neg
  | r => parseUnsignedFloat r

/-- Python float(s). -/
def pyFloat (s : String) : Option Rat := pyFloatData s.data

/-- Python s.split(sep) for a one-character separator, keeping empty
pieces. -/
def splitOnChar (sep : Char) : List Char → List (List Char)
  | [] => [[]]
  | c :: cs =>
    let r := splitOnChar sep cs
    if c = sep then [] :: r
    else
      match r with
      | h :: t => (c :: h) :: t
      | [] => [[c]]

/-- Joins character lists with a separator list. -/
def joinWith (sep : List Char) : List (List Char) → List Char
  | [] => []
  | [x] => x
  | x :: xs => x ++ sep ++ joinWith sep xs

/-- Python s.rsplit(sep, 1)[0] for sep a single underscore: everything
before the last underscore, or s itself when there is none. -/
def beforeLastUnderscore (s : String) : String :=
  let parts := splitOnChar '_' s.data
  if parts.length ≤ 1 then s else ⟨joinWith ['_'] parts.dropLast⟩

/-- Python s.strip(the double-quote character). -/
def stripQuotes (s : String) : String :=
  ⟨((s.data.dropWhile (fun c => c = '"')).reverse.dropWhile (fun c => c = '"')).reverse⟩

/-- Python single-space str.join. -/
def joinSpace (l : List String) : String := String.intercalate " " l

/-- Python s.lower() (ASCII, which covers every hwdef identifier). -/
def pyLower (s : String) : String := ⟨s.data.map Char.toLower⟩

/-- Python s.upper(). -/
def pyUpper (s : String) : String := ⟨s.data.map Char.toUpper⟩

/-- Python s.lstrip(the hash character). -/
def dropLeadingHashes (s : String) : String :=
  ⟨s.data.dropWhile (fun c => c = '#')⟩

/-- CPython dict assignment d[k] = v: overwrite in place, append new
keys at the end. -/
def dictInsert {α : Type} : List (String × α) → String → α → List (String × α)
  | [], k, v => [(k, v)]
  | (k', v') :: t, k, v =>
    if k' = k then (k, v) :: t else (k', v') :: dictInsert t k v

/-- Python set.add, for sets read only through membership. -/
def insertSet (l : List String) (x : String) : List String :=
  if x ∈ l then l else l ++ [x]

/-! Data classes of scrape-hwdef.py.  Field names follow the source;
the MCU class field is called mcuClass here. -/

/-- Dataclass OutputPin: a single PWM/motor/servo output pin. -/
structure OutputPin where
  number : Nat
  timer : String
  timer_channel : String
  gpio : Option Nat := none
  complementary : Bool := false
  bidir : Bool := false
  pin : String := ""
deriving DecidableEq, Repr

/-- Dataclass OutputGroup: outputs sharing the same timer. -/
structure OutputGroup where
  outputs : List Nat
  timer : String
  capabilities : List String
deriving DecidableEq, Repr

/-- Dataclass UartDef: a UART as it appears in SERIAL_ORDER. -/
structure UartDef where
  serial_index : Nat
  uart_name : String
  has_tx : Bool := true
  has_rx : Bool := true
  rx_dma : Bool := false
  tx_dma : Bool := false
  is_usb : Bool := false
  is_empty : Bool := false
deriving DecidableEq, Repr

/-- Dataclass BatteryMonitor. -/
structure BatteryMonitor where
  volt_pin : Option Int := none
  curr_pin : Option Int := none
  volt_mult : Option Rat := none
  amp_per_volt : Option Rat := none
deriving DecidableEq, Repr

/-- Dataclass BuiltinSensors. -/
structure BuiltinSensors where
  imu : List String := []
  barometer : List String := []
  compass : List String := []
  osd : Option String := none
  flash : Option String := none
  sdcard : Bool := false
deriving DecidableEq, Repr

/-- Dataclass RcInput. -/
structure RcInput where
  input_type : String := ""
  serial_index : Option Nat := none
  pin : String := ""
  timer : String := ""
deriving DecidableEq, Repr

/-- One parsed SPIDEV entry (the dict literal of the SPIDEV branch). -/
structure SpiDev where
  name : String
  bus : String
  devid : String
  cs : String
deriving DecidableEq, Repr

/-- Dataclass BoardData, restricted to the fields that the line parse
and its post-processing passes can write.  The folder-derived identity
fields (folder name, priority flag, bootloader flag) and the separate
defaults.parm attachment are external inputs of parse_board and are
kept at their dataclass defaults here. -/
structure Board where
  board_name : String := ""
  apj_board_id : Option Int := none
  apj_board_id_name : String := ""
  mcuClass : String := ""
  mcu_type : String := ""
  flash_kb : Int := 0
  oscillator_hz : Int := 0
  serial_order : List String := []
  uarts : List UartDef := []
  i2c_order : List String := []
  pwm_outputs : List OutputPin := []
  output_groups : List OutputGroup := []
  sensors : BuiltinSensors := {}
  spi_devices : List SpiDev := []
  battery : BatteryMonitor := {}
  rc_input : RcInput := {}
  has_buzzer : Bool := false
  buzzer_pin : String := ""
  has_led_strip : Bool := false
  led_pin : String := ""
  has_safety_switch : Bool := false
  can_interfaces : Int := 0
  dma_lines : List String := []
  includes : List String := []
  defines : List (String × String) := []
  header_comments : String := ""
deriving DecidableEq, Repr

/-! Output Group Synthesizer (_compute_output_groups).  The Python
code buckets pins into a dict keyed by timer (distinct keys, first
insertion order), iterates sorted(timer_groups.items()), sorts each
bucket in place by output number and derives the capability list.
Sorting the bucket stably by number and then taking the numbers equals
sorting the list of numbers, which is how outputs is computed here. -/

/-- Pins sharing the given timer, in their original order. -/
def membersOf (pins : List OutputPin) (t : String) : List OutputPin :=
  pins.filter (fun p => p.timer == t)

/-- Ascending output numbers of a bucket. -/
def sortedNumbers (ps : List OutputPin) : List Nat :=
  List.insertionSort (fun a b => a ≤ b) (ps.map (fun p => p.number))

/-- Capability derivation from the parsed timer number: PWM always;
DShot when the number is at most 8; BDShot additionally when some
member pin is bidirectional. -/
def capsForNum (members : List OutputPin) : Option Nat → List String
  | none => ["PWM"]
  | some n =>
    if n ≤ 8 then
      if members.any (fun p => p.bidir) then ["PWM", "DShot", "BDShot"]
      else ["PWM", "DShot"]
    else ["PWM"]

/-- Capability derivation of _compute_output_groups: the TIM regex
applied to the timer name feeds capsForNum. -/
def capsFor (t : String) (members : List OutputPin) : List String :=
  capsForNum members (findTimNum t.data)

/-- The OutputGroup synthesized for one timer. -/
def mkOutputGroup (pins : List OutputPin) (t : String) : OutputGroup :=
  { outputs := sortedNumbers (membersOf pins t)
    timer := t
    capabilities := capsFor t (membersOf pins t) }

/-- Distinct timer names in ascending order (sorted dict keys). -/
def groupTimers (pins : List OutputPin) : List String :=
  List.insertionSort (fun a b => a ≤ b) ((pins.map (fun p => p.timer)).dedup)

/-- HwdefParser._compute_output_groups as a function of the collected
output pins. -/
def compute_output_groups (pins : List OutputPin) : List OutputGroup :=
  (groupTimers pins).map (mkOutputGroup pins)

/-! Directive Processor (_process_line).  The Python elif chain is
translated as a dispatch function computing which branch fires (the
conditions below appear in the source order and wording) and one
effect function per branch.  The per-board undef set reaches the
processor only as the membership bit of the current keyword. -/

/-- SERIAL_ORDER branch body: one UartDef per token, flags from the
token shape. -/
def serialOrderUarts (toks : List String) : List UartDef :=
  toks.enum.map (fun p =>
    { serial_index := p.1
      uart_name := p.2
      is_usb := pyStartsWith p.2 "OTG" || p.2 == "USB"
      is_empty := p.2 == "EMPTY" })

/-- MCU branch. -/
def mcuApply (b : Board) (parts : List String) : Board :=
  { b with mcuClass := parts.getD 1 "", mcu_type := parts.getD 2 "" }

/-- APJ_BOARD_ID branch: numeric parse first, then the board-ID
table. -/
def apjApply (bIds : List (String × Int)) (b : Board) (parts : List String) : Board :=
  if 2 ≤ parts.length then
    match pyInt (parts.getD 1 "") with
    | some v => { b with apj_board_id_name := parts.getD 1 "", apj_board_id := some v }
    | none =>
      match List.lookup (parts.getD 1 "") bIds with
      | some v => { b with apj_board_id_name := parts.getD 1 "", apj_board_id := some v }
      | none => { b with apj_board_id_name := parts.getD 1 "" }
  else b

/-- FLASH_SIZE_KB branch (parse failure ignored). -/
def flashApply (b : Board) (parts : List String) : Board :=
  match pyInt (parts.getD 1 "") with
  | some v => { b with flash_kb := v }
  | none => b

/-- OSCILLATOR_HZ branch (parse failure ignored). -/
def oscApply (b : Board) (parts : List String) : Board :=
  match pyInt (parts.getD 1 "") with
  | some v => { b with oscillator_hz := v }
  | none => b

/-- SERIAL_ORDER branch. -/
def serialApply (b : Board) (parts : List String) : Board :=
  { b with serial_order := parts.tail, uarts := serialOrderUarts parts.tail }

/-- I2C_ORDER branch. -/
def i2cApply (b : Board) (parts : List String) : Board :=
  { b with i2c_order := parts.tail }

/-- PWM pin branch: nothing happens unless the PWM(n) marker parses. -/
def pwmApply (b : Board) (parts : List String) (line : String) : Board :=
  match findParenNum "PWM(".data line.data with
  | none => b
  | some n =>
    let timer_ch := parts.getD 1 ""
    let lastSeg : String := ⟨(splitOnChar '_' timer_ch.data).getLastD []⟩
    let out : OutputPin :=
      { number := n
        timer := parts.getD 2 ""
        timer_channel := timer_ch
        gpio := findParenNum "GPIO(".data line.data
        complementary := lastSeg.data.contains 'N' && (lastSeg.data.getLast? == some 'N')
        bidir := pyContains line "BIDIR"
        pin := parts.getD 0 "" }
    { b with pwm_outputs := b.pwm_outputs ++ [out] }

/-- SPIDEV branch. -/
def spidevApply (b : Board) (parts : List String) : Board :=
  { b with spi_devices := b.spi_devices ++
      [{ name := pyLower (parts.getD 1 "")
         bus := parts.getD 2 ""
         devid := parts.getD 3 ""
         cs := parts.getD 4 "" }] }

/-- BUZZER keyword branch. -/
def buzzerApply (b : Board) (parts : List String) : Board :=
  { b with has_buzzer := true, buzzer_pin := parts.getD 0 "" }

/-- Typed side effects of the define branch.  In the source these are
a sequence of independent if tests on distinct well-known names, so at
most one of them fires; they are written as one name dispatch here. -/
def defineEffects (b : Board) (nm val : String) : Board :=
  if nm = "HAL_BUZZER_PIN" then { b with has_buzzer := true }
  else if nm = "HAL_BATT_VOLT_PIN" then
    match pyInt val with
    | some v => { b with battery := { b.battery with volt_pin := some v } }
    | none => b
  else if nm = "HAL_BATT_CURR_PIN" then
    match pyInt val with
    | some v => { b with battery := { b.battery with curr_pin := some v } }
    | none => b
  else if nm = "HAL_BATT_VOLT_SCALE" then
    match pyFloat val with
    | some v => { b with battery := { b.battery with volt_mult := some v } }
    | none => b
  else if nm = "HAL_BATT_CURR_SCALE" then
    match pyFloat val with
    | some v => { b with battery := { b.battery with amp_per_volt := some v } }
    | none => b
  else if nm = "HAL_HAVE_SAFETY_SWITCH" then
    if pyStrip val = "1" then { b with has_safety_switch := true } else b
  else if nm = "HAL_NUM_CAN_IFACES" then
    match pyInt val with
    | some v => { b with can_interfaces := v }
    | none => b
  else if nm = "CHIBIOS_SHORT_BOARD_NAME" then { b with board_name := stripQuotes val }
  else if nm = "HAL_LED_STRIP_PIN" ∨ nm = "AP_NOTIFY_NEOPIXEL_PIN" then
    { b with has_led_strip := true }
  else if nm = "HAL_OSD_TYPE_DEFAULT" then
    if pyStrip val = "1" then { b with sensors := { b.sensors with osd := some "MAX7456" } } else b
  else if nm = "HAL_OS_FATFS_IO" then
    if pyStrip val = "1" then { b with sensors := { b.sensors with sdcard := true } } else b
  else b

/-- define branch: verbatim storage of the space-joined value, then
the typed side effects. -/
def defineApply (b : Board) (parts : List String) : Board :=
  let nm := parts.getD 1 ""
  let val := joinSpace (parts.drop 2)
  defineEffects { b with defines := dictInsert b.defines nm val } nm val

/-- SDIO / SDMMC branch. -/
def sdioApply (b : Board) : Board :=
  { b with sensors := { b.sensors with sdcard := true } }

/-- CAN keyword branch, the only consumer of the undef set. -/
def canApply (b : Board) (kwUndeffed : Bool) (kw : String) : Board :=
  if kwUndeffed then b
  else
    match findCanNum kw.data with
    | some d => { b with can_interfaces := max b.can_interfaces (d : Int) }
    | none => b

/-- DMA_PRIORITY / DMA_NOSHARE branch. -/
def dmaApply (b : Board) (line : String) : Board :=
  { b with dma_lines := b.dma_lines ++ [line] }

/-- LED-and-TIM branch. -/
def ledApply (b : Board) (parts : List String) (line : String) : Board :=
  if pyContains line "NEOPIXEL" = true ∨ pyContains line "LED_STRIP" = true then
    { b with has_led_strip := true, led_pin := parts.getD 0 "" }
  else b

/-- include tracking branch. -/
def incApply (b : Board) (parts : List String) : Board :=
  { b with includes := b.includes ++ [parts.getD 1 ""] }

/-- NEOPIXEL branch. -/
def neoApply (b : Board) (parts : List String) : Board :=
  { b with has_led_strip := true, led_pin := parts.getD 0 "" }

/-- Which arm of the _process_line elif chain fires.  batv and batc
are the two battery-ADC arms whose bodies have no effect; they still
consume the line. -/
inductive LineAct where
  | mcu | apj | flash | osc | serial | i2c | pwm | spidev | buzzer | define
  | sdio | can | dma | led | inc | batv | batc | neo | noop
deriving DecidableEq, Repr

/-- The elif chain of _process_line, conditions in source order.  Note
the operator precedence of the CAN arm: in Python it reads
(keyword.startswith(CAN) and _RX in keyword) or (_TX in keyword). -/
def dispatch (parts : List String) (line : String) : LineAct :=
  if parts.headD "" = "MCU" ∧ 3 ≤ parts.length then .mcu
  else if parts.headD "" = "APJ_BOARD_ID" then .apj
  else if parts.headD "" = "FLASH_SIZE_KB" ∧ 2 ≤ parts.length then .flash
  else if parts.headD "" = "OSCILLATOR_HZ" ∧ 2 ≤ parts.length then .osc
  else if parts.headD "" = "SERIAL_ORDER" then .serial
  else if parts.headD "" = "I2C_ORDER" then .i2c
  else if 4 ≤ parts.length ∧ pyContains line "PWM(" = true then .pwm
  else if parts.headD "" = "SPIDEV" ∧ 4 ≤ parts.length then .spidev
  else if pyContains (parts.headD "") "BUZZER" = true ∧ pyContains line "OUTPUT" = true then .buzzer
  else if parts.headD "" = "define" ∧ 3 ≤ parts.length then .define
  else if parts.headD "" = "SDIO" ∨ parts.headD "" = "SDMMC" then .sdio
  else if (pyStartsWith (parts.headD "") "CAN" = true ∧ pyContains (parts.headD "") "_RX" = true) ∨
      pyContains (parts.headD "") "_TX" = true then .can
  else if parts.headD "" = "DMA_PRIORITY" ∨ parts.headD "" = "DMA_NOSHARE" then .dma
  else if pyContains (parts.headD "") "LED" = true ∧ pyContains line "TIM" = true ∧
      pyContains line "PWM" = false then .led
  else if parts.headD "" = "include" then .inc
  else if pyContains line "BAT_VOLT" = true ∨ pyContains line "BATT_VOLTAGE" = true then .batv
  else if pyContains line "BAT_CURR" = true ∨ pyContains line "BATT_CURRENT" = true then .batc
  else if 2 ≤ parts.length ∧
      (pyContains (parts.headD "") "NEOPIXEL" = true ∨ pyContains (pyLower line) "neopixel" = true) then .neo
  else .noop

/-- Effect of one dispatched arm. -/
def applyAct (bIds : List (String × Int)) (b : Board) (kwUndeffed : Bool)
    (parts : List String) (line : String) : LineAct → Board
  | .mcu => mcuApply b parts
  | .apj => apjApply bIds b parts
  | .flash => flashApply b parts
  | .osc => oscApply b parts
  | .serial => serialApply b parts
  | .i2c => i2cApply b parts
  | .pwm => pwmApply b parts line
  | .spidev => spidevApply b parts
  | .buzzer => buzzerApply b parts
  | .define => defineApply b parts
  | .sdio => sdioApply b
  | .can => canApply b kwUndeffed (parts.headD "")
  | .dma => dmaApply b line
  | .led => ledApply b parts line
  | .inc => incApply b parts
  | .batv => b
  | .batc => b
  | .neo => neoApply b parts
  | .noop => b

/-- HwdefParser._process_line. -/
def process_line (bIds : List (String × Int)) (b : Board) (undefs : List String)
    (parts : List String) (line : String) : Board :=
  applyAct bIds b (undefs.contains (parts.headD "")) parts line (dispatch parts line)

/-! The parse_board main loop over the flattened lines. -/

/-- In-progress state of the parse_board loop. -/
structure ParseSt where
  board : Board
  undefs : List String
deriving DecidableEq, Repr

/-- One iteration of the parse_board line loop.  none models the
IndexError raised on an undef line with no argument (the only
reachable raise site), which aborts the board. -/
def parseStep (bIds : List (String × Int)) : Option ParseSt → String → Option ParseSt
  | none, _ => none
  | some st, line =>
    if line = "" ∨ pyStartsWith line "#" = true then some st
    else if pyStartsWith line "undef " = true then
      match pySplit1 line with
      | _ :: n :: _ => some { st with undefs := pyStrip n :: st.undefs }
      | _ => none
    else
      match pySplit line with
      | [] => some st
      | parts => some { st with board := process_line bIds st.board st.undefs parts line }

/-- Header-comment collection of parse_board: leading comment lines
(hashes stripped), stopped at the first nonempty non-comment line. -/
def headerScan : List String → List String
  | [] => []
  | l :: ls =>
    if pyStartsWith l "#" = true then pyStrip (dropLeadingHashes l) :: headerScan ls
    else if l ≠ "" then []
    else headerScan ls

/-- First ten header comment lines joined with newlines. -/
def headerOf (lines : List String) : String :=
  String.intercalate "\n" ((headerScan lines).take 10)

/-! Sensor Detector (_detect_sensors).  The known chip collections are
Python set literals whose iteration order is unspecified; they are
modelled in source listing order, and every property proved about
detection below holds for any order. -/

/-- KNOWN_IMU_CHIPS. -/
def KNOWN_IMU_CHIPS : List String :=
  ["mpu6000", "mpu6500", "mpu9250",
   "icm20602", "icm20608", "icm20689", "icm20948",
   "icm40609", "icm42605", "icm42670", "icm42688",
   "icm45686",
   "bmi055", "bmi088", "bmi270",
   "lsm9ds1", "lsm6dsl", "lsm6dsrx",
   "adis16470", "adis16507",
   "iam20680",
   "iim42652",
   "qmc5883l"]

/-- KNOWN_BARO_CHIPS. -/
def KNOWN_BARO_CHIPS : List String :=
  ["bmp280", "bmp388", "bmp390", "bmp581",
   "dps310",
   "ms5611", "ms5607",
   "spl06",
   "icp101xx", "icp201xx",
   "lps22h", "lps25h",
   "2smpb"]

/-- KNOWN_COMPASS_CHIPS. -/
def KNOWN_COMPASS_CHIPS : List String :=
  ["ist8310", "ist8308",
   "hmc5843", "hmc5883", "hmc5883l",
   "qmc5883l", "qmc5883",
   "lis3mdl",
   "ak8963", "ak09916",
   "rm3100",
   "mmc3416", "mmc5603", "mmc5983",
   "bmm150", "bmm350"]

/-- KNOWN_OSD_CHIPS. -/
def KNOWN_OSD_CHIPS : List String :=
  ["max7456", "at7456e", "at7456"]

/-- KNOWN_FLASH_CHIPS. -/
def KNOWN_FLASH_CHIPS : List String :=
  ["w25q128", "w25q256", "w25q64", "w25q32", "w25q16",
   "w25n01g", "w25n02g", "w25n512g",
   "m25p16",
   "gd25q16", "gd25q32", "gd25q64",
   "at25sf161",
   "is25lp016d"]

/-- Appends the canonical (upper-cased) chip name unless the category
list already holds it. -/
def addChip (lst : List String) (c : String) : List String :=
  if pyUpper c ∈ lst then lst else lst ++ [pyUpper c]

/-- IMU step of one device: first matching chip appended if new. -/
def detectImu (s : BuiltinSensors) (nm : String) : BuiltinSensors :=
  match KNOWN_IMU_CHIPS.find? (fun c => pyContains nm c) with
  | some c => { s with imu := addChip s.imu c }
  | none => s

/-- Barometer step of one device. -/
def detectBaro (s : BuiltinSensors) (nm : String) : BuiltinSensors :=
  match KNOWN_BARO_CHIPS.find? (fun c => pyContains nm c) with
  | some c => { s with barometer := addChip s.barometer c }
  | none => s

/-- Compass step of one device. -/
def detectCompass (s : BuiltinSensors) (nm : String) : BuiltinSensors :=
  match KNOWN_COMPASS_CHIPS.find? (fun c => pyContains nm c) with
  | some c => { s with compass := addChip s.compass c }
  | none => s

/-- OSD step of one device (single-valued, overwritten). -/
def detectOsd (s : BuiltinSensors) (nm : String) : BuiltinSensors :=
  match KNOWN_OSD_CHIPS.find? (fun c => pyContains nm c) with
  | some c => { s with osd := some (pyUpper c) }
  | none => s

/-- Flash step of one device (single-valued, overwritten). -/
def detectFlash (s : BuiltinSensors) (nm : String) : BuiltinSensors :=
  match KNOWN_FLASH_CHIPS.find? (fun c => pyContains nm c) with
  | some c => { s with flash := some (pyUpper c) }
  | none => s

/-- SD-card step of one device. -/
def detectSd (s : BuiltinSensors) (nm : String) : BuiltinSensors :=
  if pyContains nm "sdcard" = true ∨ pyContains nm "sd_card" = true then
    { s with sdcard := true }
  else s

/-- Detection work of one SpiDevice: first matching chip per category
(substring containment on the lower-cased device name, first match in
iteration order via find?), list categories deduplicated, OSD and
flash overwritten, SD card flagged from the name.  The five category
scans and the SD test run in the source order. -/
def detectDevice (s : BuiltinSensors) (d : SpiDev) : BuiltinSensors :=
  detectSd
    (detectFlash
      (detectOsd
        (detectCompass
          (detectBaro
            (detectImu s (pyLower d.name))
            (pyLower d.name))
          (pyLower d.name))
        (pyLower d.name))
      (pyLower d.name))
    (pyLower d.name)

/-- HwdefParser._detect_sensors. -/
def detect_sensors (b : Board) : Board :=
  { b with sensors := b.spi_devices.foldl detectDevice b.sensors }

/-! RC-Input Resolver (_detect_rc_input). -/

/-- The line scan of _detect_rc_input: first line containing RCIN and
TIM with at least three tokens classifies timer input; otherwise a
line containing RCIN and a UART family token classifies uart input. -/
def scanRc : List String → Option RcInput
  | [] => none
  | l :: ls =>
    if l = "" ∨ pyStartsWith l "#" = true then scanRc ls
    else
      let parts := pySplit l
      if pyContains l "RCIN" = true ∧ pyContains l "TIM" = true ∧ 3 ≤ parts.length then
        some { input_type := "timer", pin := parts.getD 0 "", timer := parts.getD 2 "" }
      else if pyContains l "RCIN" = true ∧ (pyContains l "USART" = true ∨ pyContains l "UART" = true) then
        some { input_type := "uart", pin := parts.getD 0 "" }
      else scanRc ls

/-- Python board.defines.get(k, the empty string). -/
def definesGet (d : List (String × String)) (k : String) : String :=
  (List.lookup k d).getD ""

/-- HwdefParser._detect_rc_input: the scan result (or the dataclass
default), then the unconditional HAL_SERIAL_INPUT_ENABLED override of
the input type. -/
def rcInputOf (defines : List (String × String)) (lines : List String) : RcInput :=
  if definesGet defines "HAL_SERIAL_INPUT_ENABLED" = "1" then
    { (scanRc lines).getD {} with input_type := "uart" }
  else (scanRc lines).getD {}

/-! UART Enricher (_parse_uart_details). -/

/-- One uart_pins entry.  The source dict also initializes tx_dma and
rx_dma booleans that are never read nor written afterwards; they are
omitted. -/
structure PinRec where
  tx : String := ""
  rx : String := ""
deriving DecidableEq, Repr

/-- The pin-function guard of the uart_pins scan: a function token of
one of the three UART families containing a TX or RX direction. -/
def uartFuncMatches (func : String) : Bool :=
  (pyStartsWith func "USART" || pyStartsWith func "UART" || pyStartsWith func "LPUART") &&
  (pyContains func "_TX" || pyContains func "_RX")

/-- One line of the uart_pins scan. -/
def uartPinsStep (m : List (String × PinRec)) (l : String) : List (String × PinRec) :=
  if l = "" ∨ pyStartsWith l "#" = true then m
  else
    let parts := pySplit l
    if parts.length < 2 then m
    else
      let pin := parts.getD 0 ""
      let func := parts.getD 1 ""
      if uartFuncMatches func = true then
        let nm := beforeLastUnderscore func
        let e := (List.lookup nm m).getD {}
        let e' :=
          if pyContains func "_TX" = true then { e with tx := pin }
          else if pyContains func "_RX" = true then { e with rx := pin }
          else e
        dictInsert m nm e'
      else m

/-- The uart_pins map of _parse_uart_details. -/
def uartPinsOf (lines : List String) : List (String × PinRec) :=
  lines.foldl uartPinsStep []

/-- One line of the NODMA scan: every token starting with USART or
UART on a line containing NODMA joins the negative set. -/
def nodmaStep (s : List String) (l : String) : List String :=
  if l = "" ∨ pyStartsWith l "#" = true then s
  else if pyContains l "NODMA" = true then
    (pySplit l).foldl
      (fun s' p =>
        if pyStartsWith p "USART" = true ∨ pyStartsWith p "UART" = true then insertSet s' p
        else s') s
  else s

/-- The nodma_uarts set of _parse_uart_details. -/
def nodmaOf (lines : List String) : List String :=
  lines.foldl nodmaStep []

/-- Per-channel update of _parse_uart_details: TX/RX presence from the
uart_pins map, then DMA flags for non-USB non-empty channels. -/
def updateUart (pinsMap : List (String × PinRec)) (nodma : List String) (u : UartDef) : UartDef :=
  let u1 :=
    match List.lookup u.uart_name pinsMap with
    | some e => { u with has_tx := e.tx != "", has_rx := e.rx != "" }
    | none => u
  if u1.is_usb = false ∧ u1.is_empty = false then
    { u1 with tx_dma := true, rx_dma := !(nodma.contains u1.uart_name) }
  else u1

/-- HwdefParser._resolve_board_id. -/
def resolveBoardId (bIds : List (String × Int)) (b : Board) : Board :=
  if b.apj_board_id = none ∧ b.apj_board_id_name ≠ "" then
    match List.lookup b.apj_board_id_name bIds with
    | some v => { b with apj_board_id := some v }
    | none =>
      match pyInt b.apj_board_id_name with
      | some v => { b with apj_board_id := some v }
      | none => b
  else b

/-- The four post-processing passes of parse_board, in source order. -/
def postProcess (bIds : List (String × Int)) (lines : List String) (b : Board) : Board :=
  let b1 := { b with output_groups := compute_output_groups b.pwm_outputs }
  let b2 := detect_sensors b1
  let b3 := { b2 with rc_input := rcInputOf b2.defines lines }
  let b4 := { b3 with uarts := b3.uarts.map (updateUart (uartPinsOf lines) (nodmaOf lines)) }
  resolveBoardId bIds b4

/-- HwdefParser.parse_board restricted to its line-driven work: header
comments, the undef-tracking line loop, and the post-processing
passes, over an already-flattened line sequence. -/
def parseBoardLines (bIds : List (String × Int)) (lines : List String) : Option Board :=
  match lines.foldl (parseStep bIds)
      (some { board := { header_comments := headerOf lines }, undefs := [] }) with
  | none => none
  | some st => some (postProcess bIds lines st.board)

/-! Include Resolver (resolve_lines).  The filesystem is a partial map
from paths to raw line lists (a missing path models both a missing and
an unreadable file), and path resolution relative to the including
file is an abstract join function, since both arms of the source's
relative-path conditional compute the same joined path.  The
per-parser include cache is threaded explicitly; gas is 11 minus the
depth argument of the source, so gas zero is exactly depth exceeding
10, where the source returns an empty list. -/

/-- Line loop of resolve_lines for one file: comments and blanks kept
stripped, include lines replaced in line by the recursive resolution
(recur), other lines kept stripped. -/
def resolveStepF (pj : String → String → String) (fp : String)
    (recur : String → List (String × List String) → (List String × List (String × List String))) :
    List String → List String → List (String × List String) →
    (List String × List (String × List String))
  | [], acc, cache => (acc, cache)
  | raw :: raws, acc, cache =>
    let stripped := pyStrip raw
    if stripped = "" ∨ pyStartsWith stripped "#" = true then
      resolveStepF pj fp recur raws (acc ++ [stripped]) cache
    else if pyStartsWith stripped "include" = true then
      match pySplit1 stripped with
      | _ :: p :: _ =>
        let r := recur (pj fp (pyStrip p)) cache
        resolveStepF pj fp recur raws (acc ++ r.1) r.2
      | _ => resolveStepF pj fp recur raws acc cache
    else resolveStepF pj fp recur raws (acc ++ [stripped]) cache

/-- HwdefParser.resolve_lines on gas = 11 - depth. -/
def resolveGas (fs : String → Option (List String)) (pj : String → String → String) :
    Nat → String → List (String × List String) →
    (List String × List (String × List String))
  | 0, _, cache => ([], cache)
  | gas + 1, fp, cache =>
    match List.lookup fp cache with
    | some ls => (ls, cache)
    | none =>
      match fs fp with
      | none => ([], cache)
      | some raws =>
        let r := resolveStepF pj fp (resolveGas fs pj gas) raws [] cache
        (r.1, dictInsert r.2 fp r.1)

/-- HwdefParser.resolve_lines (result component; the cache is the
state threaded by self._include_cache). -/
def resolve_lines (fs : String → Option (List String)) (pj : String → String → String)
    (fp : String) (depth : Nat) : List String :=
  (resolveGas fs pj (11 - depth) fp []).1

/-! Helper lemmas. -/

/-- takeWhile of an all-digit list is the list itself. -/
theorem takeDigits_all {l : List Char} (h : ∀ c ∈ l, c.isDigit = true) : takeDigits l = l := by
  induction l with
  | nil => rfl
  | cons c cs ih =>
    have hc := h c (List.mem_cons_self c cs)
    simp only [takeDigits, List.takeWhile_cons, hc]
    exact congrArg (c :: ·) (ih fun x hx => h x (List.mem_cons_of_mem c hx))

/-- The TIM regex on a canonical TIM-plus-digits timer name. -/
theorem findTimNum_canonical {ds : List Char} (h1 : ds ≠ []) (h2 : ∀ c ∈ ds, c.isDigit = true) :
    findTimNum ('T' :: 'I' :: 'M' :: ds) = some (digitsToNat ds) := by
  have hc : ('T' : Char) = 'T' ∧ ('I' :: 'M' :: ds).take 2 = ['I', 'M'] := ⟨rfl, rfl⟩
  rw [findTimNum, if_pos hc]
  have hdrop : ('I' :: 'M' :: ds).drop 2 = ds := rfl
  rw [hdrop, takeDigits_all h2, if_neg h1]

/-- PWM is in every capability list. -/
theorem pwm_mem_capsFor (t : String) (ms : List OutputPin) : "PWM" ∈ capsFor t ms := by
  unfold capsFor
  cases findTimNum t.data with
  | none => simp [capsForNum]
  | some n =>
    simp only [capsForNum]
    by_cases h : n ≤ 8
    · rw [if_pos h]
      by_cases hb : ms.any (fun p => p.bidir) <;> simp [hb]
    · rw [if_neg h]
      exact List.mem_cons_self _ _

/-- DShot membership for small timer numbers. -/
theorem dshot_mem_capsFor {t : String} {n : Nat} (ms : List OutputPin)
    (h : findTimNum t.data = some n) (hn : n ≤ 8) : "DShot" ∈ capsFor t ms := by
  unfold capsFor
  rw [h]
  simp only [capsForNum]
  rw [if_pos hn]
  by_cases hb : ms.any (fun p => p.bidir) <;> simp [hb]

/-- No DShot for large timer numbers. -/
theorem dshot_not_mem_capsFor {t : String} {n : Nat} (ms : List OutputPin)
    (h : findTimNum t.data = some n) (hn : 9 ≤ n) : "DShot" ∉ capsFor t ms := by
  unfold capsFor
  rw [h]
  simp only [capsForNum]
  rw [if_neg (by omega)]
  decide

/-- BDShot characterization over one bucket. -/
theorem bdshot_capsFor_iff (t : String) (ms : List OutputPin) :
    "BDShot" ∈ capsFor t ms ↔
      ("DShot" ∈ capsFor t ms ∧ ∃ p ∈ ms, p.bidir = true) := by
  unfold capsFor
  cases findTimNum t.data with
  | none => simp [capsForNum]
  | some n =>
    simp only [capsForNum]
    by_cases h : n ≤ 8
    · rw [if_pos h]
      by_cases hb : ms.any (fun p => p.bidir)
      · rw [if_pos hb]
        rw [List.any_eq_true] at hb
        simp only [List.mem_cons, List.not_mem_nil]
        constructor
        · intro _
          exact ⟨by simp, hb⟩
        · intro _
          simp
      · rw [if_neg hb]
        rw [List.any_eq_true] at hb
        simp only [List.mem_cons, List.not_mem_nil]
        constructor
        · intro hx
          rcases hx with hx | hx | hx <;> simp_all
        · rintro ⟨-, hx⟩
          exact absurd hx hb
    · rw [if_neg h]
      simp

/-- Membership in a timer bucket. -/
theorem mem_membersOf {pins : List OutputPin} {t : String} {p : OutputPin} :
    p ∈ membersOf pins t ↔ p ∈ pins ∧ p.timer = t := by
  unfold membersOf
  rw [List.mem_filter]
  simp [beq_iff_eq]

/-- Groups are exactly the per-timer synthesized groups. -/
theorem mem_compute_output_groups {pins : List OutputPin} {g : OutputGroup} :
    g ∈ compute_output_groups pins ↔ ∃ t ∈ groupTimers pins, mkOutputGroup pins t = g := by
  unfold compute_output_groups
  exact List.mem_map

/-! Claim C1: capability derivation of the Output Group Synthesizer. -/

/-- Conclusion of claim C1 for one synthesized group: PWM always; for
a timer named TIM followed by digits, DShot exactly on suffixes up to
8; BDShot exactly with DShot plus a bidirectional member pin. -/
def C1_concl (pins : List OutputPin) (g : OutputGroup) : Prop :=
  "PWM" ∈ g.capabilities ∧
  (∀ ds : List Char, ds ≠ [] → (∀ c ∈ ds, c.isDigit = true) →
    g.timer.data = 'T' :: 'I' :: 'M' :: ds →
    ((digitsToNat ds ≤ 8 → "DShot" ∈ g.capabilities) ∧
     (9 ≤ digitsToNat ds → "DShot" ∉ g.capabilities))) ∧
  ("BDShot" ∈ g.capabilities ↔
    ("DShot" ∈ g.capabilities ∧ ∃ p ∈ pins, p.timer = g.timer ∧ p.bidir = true))

/-- C1: for every board, the Output Group Synthesizer gives every
OutputGroup the capability PWM; a group whose timer name has numeric
suffix at most 8 additionally gets DShot and one with suffix at least
9 never does; BDShot is present exactly when the group has DShot and
some member OutputPin is bidirectional. -/
theorem C1_output_group_capabilities (pins : List OutputPin) (g : OutputGroup)
    (hg : g ∈ compute_output_groups pins) : C1_concl pins g := by
  rcases mem_compute_output_groups.mp hg with ⟨t, -, rfl⟩
  have hcap : (mkOutputGroup pins t).capabilities = capsFor t (membersOf pins t) := rfl
  have htim : (mkOutputGroup pins t).timer = t := rfl
  refine ⟨?_, ?_, ?_⟩
  · rw [hcap]; exact pwm_mem_capsFor t _
  · intro ds h1 h2 hshape
    rw [htim] at hshape
    have hfind : findTimNum t.data = some (digitsToNat ds) := by
      rw [hshape]; exact findTimNum_canonical h1 h2
    constructor
    · intro hle
      rw [hcap]; exact dshot_mem_capsFor _ hfind hle
    · intro hge
      rw [hcap]; exact dshot_not_mem_capsFor _ hfind hge
  · rw [hcap, htim, bdshot_capsFor_iff]
    constructor
    · rintro ⟨hd, p, hp, hb⟩
      exact ⟨hd, p, (mem_membersOf.mp hp).1, (mem_membersOf.mp hp).2, hb⟩
    · rintro ⟨hd, p, hp, ht, hb⟩
      exact ⟨hd, p, mem_membersOf.mpr ⟨hp, ht⟩, hb⟩

/-- Concrete pin list for the C1 witness. -/
def pinsW1 : List OutputPin :=
  [{ number := 1, timer := "TIM2", timer_channel := "TIM2_CH1", bidir := true, pin := "PA0" }]

/-- The group the synthesizer produces for pinsW1. -/
def gW1 : OutputGroup :=
  { outputs := [1], timer := "TIM2", capabilities := ["PWM", "DShot", "BDShot"] }

/-- Witness for C1 at a concrete board. -/
theorem C1_output_group_capabilities_witness :
    gW1 ∈ compute_output_groups pinsW1 ∧ C1_concl pinsW1 gW1 :=
  ⟨by decide, C1_output_group_capabilities pinsW1 gW1 (by decide)⟩

/-! Structural lemmas about the directive processor and the
post-processing passes. -/

/-- defineEffects leaves the table, channels, SPI devices and sensor
category lists untouched (it writes only typed feature fields). -/
theorem defineEffects_shape (b : Board) (nm val : String) :
    (defineEffects b nm val).defines = b.defines ∧
    (defineEffects b nm val).uarts = b.uarts ∧
    (defineEffects b nm val).spi_devices = b.spi_devices ∧
    (defineEffects b nm val).sensors.imu = b.sensors.imu ∧
    (defineEffects b nm val).sensors.barometer = b.sensors.barometer ∧
    (defineEffects b nm val).sensors.compass = b.sensors.compass := by
  unfold defineEffects
  by_cases h1 : nm = "HAL_BUZZER_PIN"
  · rw [if_pos h1]; exact ⟨rfl, rfl, rfl, rfl, rfl, rfl⟩
  rw [if_neg h1]
  by_cases h2 : nm = "HAL_BATT_VOLT_PIN"
  · rw [if_pos h2]; cases pyInt val <;> exact ⟨rfl, rfl, rfl, rfl, rfl, rfl⟩
  rw [if_neg h2]
  by_cases h3 : nm = "HAL_BATT_CURR_PIN"
  · rw [if_pos h3]; cases pyInt val <;> exact ⟨rfl, rfl, rfl, rfl, rfl, rfl⟩
  rw [if_neg h3]
  by_cases h4 : nm = "HAL_BATT_VOLT_SCALE"
  · rw [if_pos h4]; cases pyFloat val <;> exact ⟨rfl, rfl, rfl, rfl, rfl, rfl⟩
  rw [if_neg h4]
  by_cases h5 : nm = "HAL_BATT_CURR_SCALE"
  · rw [if_pos h5]; cases pyFloat val <;> exact ⟨rfl, rfl, rfl, rfl, rfl, rfl⟩
  rw [if_neg h5]
  by_cases h6 : nm = "HAL_HAVE_SAFETY_SWITCH"
  · rw [if_pos h6]
    by_cases hs : pyStrip val = "1"
    · rw [if_pos hs]; exact ⟨rfl, rfl, rfl, rfl, rfl, rfl⟩
    · rw [if_neg hs]; exact ⟨rfl, rfl, rfl, rfl, rfl, rfl⟩
  rw [if_neg h6]
  by_cases h7 : nm = "HAL_NUM_CAN_IFACES"
  · rw [if_pos h7]; cases pyInt val <;> exact ⟨rfl, rfl, rfl, rfl, rfl, rfl⟩
  rw [if_neg h7]
  by_cases h8 : nm = "CHIBIOS_SHORT_BOARD_NAME"
  · rw [if_pos h8]; exact ⟨rfl, rfl, rfl, rfl, rfl, rfl⟩
  rw [if_neg h8]
  by_cases h9 : nm = "HAL_LED_STRIP_PIN" ∨ nm = "AP_NOTIFY_NEOPIXEL_PIN"
  · rw [if_pos h9]; exact ⟨rfl, rfl, rfl, rfl, rfl, rfl⟩
  rw [if_neg h9]
  by_cases h10 : nm = "HAL_OSD_TYPE_DEFAULT"
  · rw [if_pos h10]
    by_cases hs : pyStrip val = "1"
    · rw [if_pos hs]; exact ⟨rfl, rfl, rfl, rfl, rfl, rfl⟩
    · rw [if_neg hs]; exact ⟨rfl, rfl, rfl, rfl, rfl, rfl⟩
  rw [if_neg h10]
  by_cases h11 : nm = "HAL_OS_FATFS_IO"
  · rw [if_pos h11]
    by_cases hs : pyStrip val = "1"
    · rw [if_pos hs]; exact ⟨rfl, rfl, rfl, rfl, rfl, rfl⟩
    · rw [if_neg hs]; exact ⟨rfl, rfl, rfl, rfl, rfl, rfl⟩
  rw [if_neg h11]
  exact ⟨rfl, rfl, rfl, rfl, rfl, rfl⟩

/-- defineEffects never rewrites the raw-directive table. -/
theorem defineEffects_defines (b : Board) (nm val : String) :
    (defineEffects b nm val).defines = b.defines :=
  (defineEffects_shape b nm val).1

/-- defineEffects never touches the channel list. -/
theorem defineEffects_uarts (b : Board) (nm val : String) :
    (defineEffects b nm val).uarts = b.uarts :=
  (defineEffects_shape b nm val).2.1

/-- defineEffects never touches the SPI device list. -/
theorem defineEffects_spi (b : Board) (nm val : String) :
    (defineEffects b nm val).spi_devices = b.spi_devices :=
  (defineEffects_shape b nm val).2.2.1

/-- defineEffects only writes the OSD and SD-card sensor fields. -/
theorem defineEffects_sensor_lists (b : Board) (nm val : String) :
    (defineEffects b nm val).sensors.imu = b.sensors.imu ∧
    (defineEffects b nm val).sensors.barometer = b.sensors.barometer ∧
    (defineEffects b nm val).sensors.compass = b.sensors.compass :=
  ⟨(defineEffects_shape b nm val).2.2.2.1, (defineEffects_shape b nm val).2.2.2.2.1,
    (defineEffects_shape b nm val).2.2.2.2.2⟩

/-- Raw-directive table evolution of one processed line: unchanged
unless the define arm fires, in which case the parsed name is bound to
the space-joined value. -/
theorem process_line_defines (bIds : List (String × Int)) (b : Board) (undefs : List String)
    (parts : List String) (line : String) :
    (process_line bIds b undefs parts line).defines = b.defines ∨
      (dispatch parts line = .define ∧
        (process_line bIds b undefs parts line).defines =
          dictInsert b.defines (parts.getD 1 "") (joinSpace (parts.drop 2))) := by
  unfold process_line
  cases hact : dispatch parts line
  case define =>
    right
    refine ⟨rfl, ?_⟩
    simp only [applyAct]
    unfold defineApply
    rw [defineEffects_defines]
  case apj =>
    left
    simp only [applyAct]
    unfold apjApply
    by_cases h : 2 ≤ parts.length
    · rw [if_pos h]
      cases pyInt (parts.getD 1 "") with
      | some v => rfl
      | none => cases List.lookup (parts.getD 1 "") bIds <;> rfl
    · rw [if_neg h]
  case flash =>
    left
    simp only [applyAct]
    unfold flashApply
    cases pyInt (parts.getD 1 "") <;> rfl
  case osc =>
    left
    simp only [applyAct]
    unfold oscApply
    cases pyInt (parts.getD 1 "") <;> rfl
  case pwm =>
    left
    simp only [applyAct]
    unfold pwmApply
    cases findParenNum "PWM(".data line.data <;> rfl
  case can =>
    left
    simp only [applyAct]
    unfold canApply
    cases undefs.contains (parts.headD "")
    · cases findCanNum (parts.headD "").data <;> rfl
    · rfl
  case led =>
    left
    simp only [applyAct]
    unfold ledApply
    by_cases h : pyContains line "NEOPIXEL" = true ∨ pyContains line "LED_STRIP" = true
    · rw [if_pos h]
    · rw [if_neg h]
  all_goals left
  all_goals rfl

/-- Channel-list evolution of one processed line: unchanged unless
the SERIAL_ORDER arm fires. -/
theorem process_line_uarts (bIds : List (String × Int)) (b : Board) (undefs : List String)
    (parts : List String) (line : String) :
    (process_line bIds b undefs parts line).uarts = b.uarts ∨
      (process_line bIds b undefs parts line).uarts = serialOrderUarts parts.tail := by
  unfold process_line
  cases hact : dispatch parts line
  case serial => right; rfl
  case apj =>
    left
    simp only [applyAct]
    unfold apjApply
    by_cases h : 2 ≤ parts.length
    · rw [if_pos h]
      cases pyInt (parts.getD 1 "") with
      | some v => rfl
      | none => cases List.lookup (parts.getD 1 "") bIds <;> rfl
    · rw [if_neg h]
  case flash =>
    left
    simp only [applyAct]
    unfold flashApply
    cases pyInt (parts.getD 1 "") <;> rfl
  case osc =>
    left
    simp only [applyAct]
    unfold oscApply
    cases pyInt (parts.getD 1 "") <;> rfl
  case pwm =>
    left
    simp only [applyAct]
    unfold pwmApply
    cases findParenNum "PWM(".data line.data <;> rfl
  case can =>
    left
    simp only [applyAct]
    unfold canApply
    cases undefs.contains (parts.headD "")
    · cases findCanNum (parts.headD "").data <;> rfl
    · rfl
  case led =>
    left
    simp only [applyAct]
    unfold ledApply
    by_cases h : pyContains line "NEOPIXEL" = true ∨ pyContains line "LED_STRIP" = true
    · rw [if_pos h]
    · rw [if_neg h]
  case define =>
    left
    simp only [applyAct]
    unfold defineApply
    rw [defineEffects_uarts]
  all_goals left
  all_goals rfl

/-- Sensor category lists are never written by the line processor. -/
theorem process_line_sensor_lists (bIds : List (String × Int)) (b : Board)
    (undefs : List String) (parts : List String) (line : String) :
    (process_line bIds b undefs parts line).sensors.imu = b.sensors.imu ∧
    (process_line bIds b undefs parts line).sensors.barometer = b.sensors.barometer ∧
    (process_line bIds b undefs parts line).sensors.compass = b.sensors.compass := by
  unfold process_line
  cases hact : dispatch parts line
  case apj =>
    simp only [applyAct]
    unfold apjApply
    by_cases h : 2 ≤ parts.length
    · rw [if_pos h]
      cases pyInt (parts.getD 1 "") with
      | some v => exact ⟨rfl, rfl, rfl⟩
      | none => cases List.lookup (parts.getD 1 "") bIds <;> exact ⟨rfl, rfl, rfl⟩
    · rw [if_neg h]
      exact ⟨rfl, rfl, rfl⟩
  case flash =>
    simp only [applyAct]
    unfold flashApply
    cases pyInt (parts.getD 1 "") <;> exact ⟨rfl, rfl, rfl⟩
  case osc =>
    simp only [applyAct]
    unfold oscApply
    cases pyInt (parts.getD 1 "") <;> exact ⟨rfl, rfl, rfl⟩
  case pwm =>
    simp only [applyAct]
    unfold pwmApply
    cases findParenNum "PWM(".data line.data <;> exact ⟨rfl, rfl, rfl⟩
  case can =>
    simp only [applyAct]
    unfold canApply
    cases undefs.contains (parts.headD "")
    · cases findCanNum (parts.headD "").data <;> exact ⟨rfl, rfl, rfl⟩
    · exact ⟨rfl, rfl, rfl⟩
  case led =>
    simp only [applyAct]
    unfold ledApply
    by_cases h : pyContains line "NEOPIXEL" = true ∨ pyContains line "LED_STRIP" = true
    · rw [if_pos h]
      exact ⟨rfl, rfl, rfl⟩
    · rw [if_neg h]
      exact ⟨rfl, rfl, rfl⟩
  case define =>
    simp only [applyAct]
    unfold defineApply
    exact defineEffects_sensor_lists _ _ _
  all_goals exact ⟨rfl, rfl, rfl⟩

/-- detect_sensors only rewrites the sensors component. -/
theorem detect_sensors_defines (b : Board) : (detect_sensors b).defines = b.defines := rfl

/-- resolveBoardId only rewrites the numeric board ID: projection
package. -/
theorem resolveBoardId_shape (bIds : List (String × Int)) (b : Board) :
    (resolveBoardId bIds b).defines = b.defines ∧
    (resolveBoardId bIds b).uarts = b.uarts ∧
    (resolveBoardId bIds b).sensors = b.sensors ∧
    (resolveBoardId bIds b).rc_input = b.rc_input ∧
    (resolveBoardId bIds b).spi_devices = b.spi_devices := by
  unfold resolveBoardId
  by_cases h : b.apj_board_id = none ∧ b.apj_board_id_name ≠ ""
  · rw [if_pos h]
    cases List.lookup b.apj_board_id_name bIds with
    | some v => exact ⟨rfl, rfl, rfl, rfl, rfl⟩
    | none => cases pyInt b.apj_board_id_name <;> exact ⟨rfl, rfl, rfl, rfl, rfl⟩
  · rw [if_neg h]
    exact ⟨rfl, rfl, rfl, rfl, rfl⟩

/-- The post passes do not touch the raw-directive table. -/
theorem postProcess_defines (bIds : List (String × Int)) (lines : List String) (b : Board) :
    (postProcess bIds lines b).defines = b.defines := by
  unfold postProcess
  exact ((resolveBoardId_shape bIds _).1).trans rfl

/-- The RC input of the finished record is the RC-input pass applied
to the processed defines and the flattened lines. -/
theorem postProcess_rc (bIds : List (String × Int)) (lines : List String) (b : Board) :
    (postProcess bIds lines b).rc_input = rcInputOf b.defines lines := by
  unfold postProcess
  exact ((resolveBoardId_shape bIds _).2.2.2.1).trans rfl

/-- The channels of the finished record are the processed channels
through the UART enricher. -/
theorem postProcess_uarts (bIds : List (String × Int)) (lines : List String) (b : Board) :
    (postProcess bIds lines b).uarts =
      b.uarts.map (updateUart (uartPinsOf lines) (nodmaOf lines)) := by
  unfold postProcess
  exact ((resolveBoardId_shape bIds _).2.1).trans rfl

/-- The sensors of the finished record are the detection fold over the
collected SPI devices. -/
theorem postProcess_sensors (bIds : List (String × Int)) (lines : List String) (b : Board) :
    (postProcess bIds lines b).sensors = b.spi_devices.foldl detectDevice b.sensors := by
  unfold postProcess
  exact ((resolveBoardId_shape bIds _).2.2.1).trans rfl

/-- The post passes keep the SPI device list. -/
theorem postProcess_spi (bIds : List (String × Int)) (lines : List String) (b : Board) :
    (postProcess bIds lines b).spi_devices = b.spi_devices := by
  unfold postProcess
  exact ((resolveBoardId_shape bIds _).2.2.2.2).trans rfl

/-- A crashed parse never recovers. -/
theorem foldl_parseStep_none (bIds : List (String × Int)) :
    ∀ lines : List String, lines.foldl (parseStep bIds) none = none
  | [] => rfl
  | _ :: ls => by rw [List.foldl_cons]; exact foldl_parseStep_none bIds ls

/-- One surviving parse step either keeps the board or processes the
split line. -/
theorem parseStep_some_board {bIds : List (String × Int)} {st st' : ParseSt} {line : String}
    (h : parseStep bIds (some st) line = some st') :
    st'.board = st.board ∨
      (line ≠ "" ∧ pyStartsWith line "#" = false ∧ pyStartsWith line "undef " = false ∧
        pySplit line ≠ [] ∧
        st'.board = process_line bIds st.board st.undefs (pySplit line) line) := by
  simp only [parseStep] at h
  by_cases h1 : line = "" ∨ pyStartsWith line "#" = true
  · rw [if_pos h1] at h
    left
    injection h with h'
    rw [← h']
  rw [if_neg h1] at h
  by_cases h2 : pyStartsWith line "undef " = true
  · rw [if_pos h2] at h
    cases hsp : pySplit1 line with
    | nil => rw [hsp] at h; exact absurd h (by simp)
    | cons a t =>
      cases t with
      | nil => rw [hsp] at h; exact absurd h (by simp)
      | cons n t2 =>
        rw [hsp] at h
        left
        injection h with h'
        rw [← h']
  rw [if_neg h2] at h
  cases hsp : pySplit line with
  | nil =>
    rw [hsp] at h
    left
    injection h with h'
    rw [← h']
  | cons p ps =>
    rw [hsp] at h
    rcases not_or.mp h1 with ⟨hne, hhash⟩
    right
    refine ⟨hne, by simpa using hhash, by simpa using h2, by simp [hsp], ?_⟩
    injection h with h'
    rw [← h', ← hsp]

/-- Board predicates preserved by every processed line are preserved
by the whole surviving parse. -/
theorem fold_invariant {bIds : List (String × Int)} (P : Board → Prop) :
    ∀ (lines : List String),
      (∀ line ∈ lines, ∀ b undefs, line ≠ "" → pyStartsWith line "#" = false →
        pyStartsWith line "undef " = false → pySplit line ≠ [] →
        P b → P (process_line bIds b undefs (pySplit line) line)) →
      ∀ (st st' : ParseSt),
        lines.foldl (parseStep bIds) (some st) = some st' → P st.board → P st'.board
  | [], _, st, st', h, hP => by
    rw [List.foldl_nil] at h
    injection h with h'
    rw [← h']
    exact hP
  | l :: ls, hstep, st, st', h, hP => by
    rw [List.foldl_cons] at h
    cases hps : parseStep bIds (some st) l with
    | none =>
      rw [hps, foldl_parseStep_none] at h
      exact absurd h (by simp)
    | some st1 =>
      rw [hps] at h
      have hP1 : P st1.board := by
        rcases parseStep_some_board hps with hb | ⟨g1, g2, g3, g4, hb⟩
        · rw [hb]; exact hP
        · rw [hb]
          exact hstep l (List.mem_cons_self l ls) _ _ g1 g2 g3 g4 hP
      exact fold_invariant P ls
        (fun x hx => hstep x (List.mem_cons_of_mem l hx)) st1 st' h hP1

/-- Inversion of a successful parse. -/
theorem parseBoardLines_eq_some {bIds : List (String × Int)} {lines : List String} {b : Board}
    (h : parseBoardLines bIds lines = some b) :
    ∃ st : ParseSt,
      lines.foldl (parseStep bIds)
          (some { board := { header_comments := headerOf lines }, undefs := [] }) = some st ∧
      b = postProcess bIds lines st.board := by
  unfold parseBoardLines at h
  cases heq : lines.foldl (parseStep bIds)
      (some { board := { header_comments := headerOf lines }, undefs := [] }) with
  | none => rw [heq] at h; exact absurd h (by simp)
  | some st =>
    rw [heq] at h
    injection h with h'
    exact ⟨st, rfl, h'.symm⟩


/-- Lookup after overwrite. -/
theorem lookup_dictInsert_self {α : Type} (d : List (String × α)) (k : String) (v : α) :
    List.lookup k (dictInsert d k v) = some v := by
  induction d with
  | nil => simp [dictInsert, List.lookup]
  | cons kv t ih =>
    obtain ⟨k', v'⟩ := kv
    by_cases h : k' = k
    · simp [dictInsert, h, List.lookup]
    · rw [dictInsert, if_neg h, List.lookup]
      have hb : (k == k') = false := beq_eq_false_iff_ne.mpr (Ne.symm h)
      rw [hb]
      exact ih

/-- Lookup through a foreign overwrite. -/
theorem lookup_dictInsert_ne {α : Type} (d : List (String × α)) {k k' : String} (v : α)
    (h : k ≠ k') : List.lookup k (dictInsert d k' v) = List.lookup k d := by
  induction d with
  | nil => simp [dictInsert, List.lookup, beq_eq_false_iff_ne.mpr h]
  | cons kv t ih =>
    obtain ⟨a, w⟩ := kv
    by_cases ha : a = k'
    · rw [dictInsert, if_pos ha, List.lookup, List.lookup,
        beq_eq_false_iff_ne.mpr h, ha, beq_eq_false_iff_ne.mpr h]
    · rw [dictInsert, if_neg ha, List.lookup, List.lookup]
      cases hk : k == a with
      | true => rfl
      | false => exact ih

/-- A nonempty split means a nonempty line. -/
theorem pySplit_ne_nil_of {line : String} (h : pySplit line ≠ []) : line ≠ "" := by
  intro hline
  rw [hline] at h
  exact h rfl

/-- A line that passes the loop guards is processed into the board. -/
theorem parseStep_processes {bIds : List (String × Int)} {st : ParseSt} {line : String}
    (h1 : line ≠ "") (h2 : pyStartsWith line "#" = false)
    (h3 : pyStartsWith line "undef " = false) (h4 : pySplit line ≠ []) :
    parseStep bIds (some st) line =
      some { st with board := process_line bIds st.board st.undefs (pySplit line) line } := by
  simp only [parseStep]
  rw [if_neg (by simp [h1, h2]), if_neg (by simp [h3])]

/-- Forward dispatch: a well-formed unshadowed define line fires the
define arm. -/
theorem dispatch_eq_define {parts : List String} {line : String}
    (hkw : parts.headD "" = "define") (hlen : 3 ≤ parts.length)
    (hpwm : ¬(4 ≤ parts.length ∧ pyContains line "PWM(" = true)) :
    dispatch parts line = .define := by
  unfold dispatch
  rw [if_neg (fun hc => by rw [hkw] at hc; exact absurd hc.1 (by decide)),
    if_neg (fun hc => by rw [hkw] at hc; exact absurd hc (by decide)),
    if_neg (fun hc => by rw [hkw] at hc; exact absurd hc.1 (by decide)),
    if_neg (fun hc => by rw [hkw] at hc; exact absurd hc.1 (by decide)),
    if_neg (fun hc => by rw [hkw] at hc; exact absurd hc (by decide)),
    if_neg (fun hc => by rw [hkw] at hc; exact absurd hc (by decide)),
    if_neg hpwm,
    if_neg (fun hc => by rw [hkw] at hc; exact absurd hc.1 (by decide)),
    if_neg (fun hc => by rw [hkw] at hc; exact absurd hc.1 (by decide)),
    if_pos ⟨hkw, hlen⟩]

/-- Backward dispatch: only a well-formed unshadowed define line fires
the define arm. -/
theorem dispatch_define_inv {parts : List String} {line : String}
    (h : dispatch parts line = .define) :
    parts.headD "" = "define" ∧ 3 ≤ parts.length ∧
      ¬(4 ≤ parts.length ∧ pyContains line "PWM(" = true) := by
  unfold dispatch at h
  by_cases c1 : parts.headD "" = "MCU" ∧ 3 ≤ parts.length
  · rw [if_pos c1] at h; exact absurd h (by decide)
  rw [if_neg c1] at h
  by_cases c2 : parts.headD "" = "APJ_BOARD_ID"
  · rw [if_pos c2] at h; exact absurd h (by decide)
  rw [if_neg c2] at h
  by_cases c3 : parts.headD "" = "FLASH_SIZE_KB" ∧ 2 ≤ parts.length
  · rw [if_pos c3] at h; exact absurd h (by decide)
  rw [if_neg c3] at h
  by_cases c4 : parts.headD "" = "OSCILLATOR_HZ" ∧ 2 ≤ parts.length
  · rw [if_pos c4] at h; exact absurd h (by decide)
  rw [if_neg c4] at h
  by_cases c5 : parts.headD "" = "SERIAL_ORDER"
  · rw [if_pos c5] at h; exact absurd h (by decide)
  rw [if_neg c5] at h
  by_cases c6 : parts.headD "" = "I2C_ORDER"
  · rw [if_pos c6] at h; exact absurd h (by decide)
  rw [if_neg c6] at h
  by_cases c7 : 4 ≤ parts.length ∧ pyContains line "PWM(" = true
  · rw [if_pos c7] at h; exact absurd h (by decide)
  rw [if_neg c7] at h
  by_cases c8 : parts.headD "" = "SPIDEV" ∧ 4 ≤ parts.length
  · rw [if_pos c8] at h; exact absurd h (by decide)
  rw [if_neg c8] at h
  by_cases c9 : pyContains (parts.headD "") "BUZZER" = true ∧ pyContains line "OUTPUT" = true
  · rw [if_pos c9] at h; exact absurd h (by decide)
  rw [if_neg c9] at h
  by_cases c10 : parts.headD "" = "define" ∧ 3 ≤ parts.length
  · exact ⟨c10.1, c10.2, c7⟩
  rw [if_neg c10] at h
  by_cases c11 : parts.headD "" = "SDIO" ∨ parts.headD "" = "SDMMC"
  · rw [if_pos c11] at h; exact absurd h (by decide)
  rw [if_neg c11] at h
  by_cases c12 : (pyStartsWith (parts.headD "") "CAN" = true ∧
      pyContains (parts.headD "") "_RX" = true) ∨ pyContains (parts.headD "") "_TX" = true
  · rw [if_pos c12] at h; exact absurd h (by decide)
  rw [if_neg c12] at h
  by_cases c13 : parts.headD "" = "DMA_PRIORITY" ∨ parts.headD "" = "DMA_NOSHARE"
  · rw [if_pos c13] at h; exact absurd h (by decide)
  rw [if_neg c13] at h
  by_cases c14 : pyContains (parts.headD "") "LED" = true ∧ pyContains line "TIM" = true ∧
      pyContains line "PWM" = false
  · rw [if_pos c14] at h; exact absurd h (by decide)
  rw [if_neg c14] at h
  by_cases c15 : parts.headD "" = "include"
  · rw [if_pos c15] at h; exact absurd h (by decide)
  rw [if_neg c15] at h
  by_cases c16 : pyContains line "BAT_VOLT" = true ∨ pyContains line "BATT_VOLTAGE" = true
  · rw [if_pos c16] at h; exact absurd h (by decide)
  rw [if_neg c16] at h
  by_cases c17 : pyContains line "BAT_CURR" = true ∨ pyContains line "BATT_CURRENT" = true
  · rw [if_pos c17] at h; exact absurd h (by decide)
  rw [if_neg c17] at h
  by_cases c18 : 2 ≤ parts.length ∧
      (pyContains (parts.headD "") "NEOPIXEL" = true ∨ pyContains (pyLower line) "neopixel" = true)
  · rw [if_pos c18] at h; exact absurd h (by decide)
  rw [if_neg c18] at h
  exact absurd h (by decide)

/-- The define directive lines of claim C4: a define keyword with a
name and at least one value token, not captured by the earlier
PWM-marker arm, and not skipped by the loop guards. -/
def storedDefine (l : String) (nm : String) (vals : List String) : Prop :=
  pyStartsWith l "#" = false ∧ pyStartsWith l "undef " = false ∧
  pySplit l = "define" :: nm :: vals ∧ vals ≠ [] ∧
  ¬(4 ≤ (pySplit l).length ∧ pyContains l "PWM(" = true)

/-! Claim C4 (corrected): verbatim round-trip of defines. -/

/-- Line list refuting claim C4 as stated: a repeated define name and
a define whose value contains the PWM marker. -/
def linesC4 : List String :=
  ["define A  x  y", "define A z", "define B PWM(1) s"]

/-- C4 counterexample: the first define of A stores the value with
whitespace collapsed and is then overwritten by the later define of A,
and the define of B is captured by the PWM-pin arm and never stored,
so the table neither contains the literal value of every define
directive nor an entry for every define name. -/
theorem C4_define_roundtrip_counterexample :
    ((parseBoardLines [] linesC4).map fun b => b.defines) = some [("A", "z")] ∧
    (pySplit "define B PWM(1) s" = ["define", "B", "PWM(1)", "s"]) ∧
    ((parseBoardLines [] linesC4).map fun b => List.lookup "B" b.defines) = some none ∧
    ((parseBoardLines [] linesC4).map fun b => List.lookup "A" b.defines) ≠ some (some "x  y") :=
  ⟨by decide, by decide, by decide, by decide⟩

/-- Conclusion of the amended claim C4. -/
def C4_concl (nm : String) (vals : List String) (b : Board) : Prop :=
  List.lookup nm b.defines = some (joinSpace vals)

/-- C4 (amended): for every define directive line that is not captured
by the PWM-pin arm, the raw-directive table binds the define name to
its whitespace-normalized (space-joined) value, the last such
directive for a name winning. -/
theorem C4_define_roundtrip (bIds : List (String × Int)) (pre post : List String)
    (l : String) (nm : String) (vals : List String) (b : Board)
    (hparse : parseBoardLines bIds (pre ++ l :: post) = some b)
    (hl : storedDefine l nm vals)
    (hpost : ∀ l' ∈ post, ∀ vals', ¬ storedDefine l' nm vals') :
    C4_concl nm vals b := by
  obtain ⟨hhash, hundef, hsplit, hvals, hpwm⟩ := hl
  have hne : l ≠ "" := pySplit_ne_nil_of (by rw [hsplit]; simp)
  rcases parseBoardLines_eq_some hparse with ⟨st, hfold, rfl⟩
  unfold C4_concl
  rw [postProcess_defines]
  rw [List.foldl_append, List.foldl_cons] at hfold
  -- the fold over pre must have survived
  cases hpre : (pre.foldl (parseStep bIds)
      (some { board := { header_comments := headerOf (pre ++ l :: post) }, undefs := [] })) with
  | none =>
    rw [hpre] at hfold
    rw [show parseStep bIds none l = none from rfl, foldl_parseStep_none] at hfold
    exact absurd hfold (by simp)
  | some st0 =>
    rw [hpre, parseStep_processes hne hhash hundef (by rw [hsplit]; simp)] at hfold
    -- after processing l, the table binds nm
    have hdisp : dispatch (pySplit l) l = .define := by
      refine dispatch_eq_define ?_ ?_ ?_
      · rw [hsplit]; rfl
      · rw [hsplit]
        have := List.length_pos.mpr hvals
        simp only [List.length_cons]
        omega
      · exact hpwm
    have hstep : (process_line bIds st0.board st0.undefs (pySplit l) l).defines =
        dictInsert st0.board.defines nm (joinSpace vals) := by
      unfold process_line
      rw [hdisp]
      show (defineApply st0.board (pySplit l)).defines = _
      unfold defineApply
      rw [defineEffects_defines, hsplit]
      rfl
    -- the later lines preserve the binding
    refine fold_invariant
      (fun bd => List.lookup nm bd.defines = some (joinSpace vals)) post
      ?_ _ _ hfold ?_
    · intro l' hl' bd undefs hne' hhash' hundef' hsp' hP
      rcases process_line_defines bIds bd undefs (pySplit l') l' with hsame | ⟨hd, hins⟩
      · rw [hsame]; exact hP
      · rcases dispatch_define_inv hd with ⟨hkw', hlen', hpwm'⟩
        -- the processed line is itself a stored define line
        obtain ⟨nm', rest, hshape⟩ : ∃ nm' rest, pySplit l' = "define" :: nm' :: rest := by
          cases hps : pySplit l' with
          | nil => rw [hps] at hkw'; exact absurd hkw' (by decide)
          | cons a t =>
            cases t with
            | nil => rw [hps] at hlen'; simp at hlen'
            | cons a2 t2 =>
              refine ⟨a2, t2, ?_⟩
              rw [hps] at hkw'
              simp only [List.headD_cons] at hkw'
              rw [hkw']
        have hrest : rest ≠ [] := by
          intro hr
          rw [hshape, hr] at hlen'
          simp at hlen'
        have hsd : storedDefine l' nm' rest :=
          ⟨hhash', hundef', hshape, hrest, hpwm'⟩
        have hnm : nm' ≠ nm := fun hEq => hpost l' hl' rest (hEq ▸ hsd)
        rw [hins]
        have hget : (pySplit l').getD 1 "" = nm' := by rw [hshape]; rfl
        rw [hget, lookup_dictInsert_ne _ _ (Ne.symm hnm)]
        exact hP
    · show List.lookup nm
          (process_line bIds st0.board st0.undefs (pySplit l) l).defines =
          some (joinSpace vals)
      rw [hstep]
      exact lookup_dictInsert_self _ _ _

/-- Witness input for the amended C4. -/
def linesW4 : List String := ["define HAL_W4_NAME v1 v2"]

/-- Witness board for the amended C4. -/
def bW4 : Board := (parseBoardLines [] linesW4).getD {}

/-- Witness for the amended C4 at a concrete define. -/
theorem C4_define_roundtrip_witness :
    parseBoardLines [] ([] ++ "define HAL_W4_NAME v1 v2" :: []) = some bW4 ∧
    storedDefine "define HAL_W4_NAME v1 v2" "HAL_W4_NAME" ["v1", "v2"] ∧
    C4_concl "HAL_W4_NAME" ["v1", "v2"] bW4 :=
  ⟨by decide, by refine ⟨by decide, by decide, by decide, by decide, by decide⟩,
    C4_define_roundtrip [] [] [] "define HAL_W4_NAME v1 v2" "HAL_W4_NAME" ["v1", "v2"] bW4
      (by decide) ⟨by decide, by decide, by decide, by decide, by decide⟩
      (fun l' hl' => absurd hl' (List.not_mem_nil l'))⟩

/-! Claim C5 (corrected): the RC-input override. -/

/-- Line list refuting claim C5 as stated: a timer heuristic line plus
the serial-input define. -/
def linesC5 : List String :=
  ["PA10 TIM1_CH3 TIM1 RCIN", "define HAL_SERIAL_INPUT_ENABLED 1"]

/-- C5 counterexample: the scan classifies the board as timer input,
yet the final RC-input type is uart because the define override is
applied unconditionally, contradicting the claim that heuristic
classification wins whenever a heuristic line exists. -/
theorem C5_rc_override_counterexample :
    scanRc linesC5 = some { input_type := "timer", pin := "PA10", timer := "TIM1" } ∧
    ((parseBoardLines [] linesC5).map fun b => b.rc_input.input_type) = some "uart" ∧
    "uart" ≠ "timer" :=
  ⟨by decide, by decide, by decide⟩

/-- Conclusion of the amended claim C5: the define with value 1 forces
the uart type unconditionally (keeping the scanned pin and timer), and
without it the RC input is exactly the heuristic scan result. -/
def C5_concl (lines : List String) (b : Board) : Prop :=
  (definesGet b.defines "HAL_SERIAL_INPUT_ENABLED" = "1" →
    b.rc_input.input_type = "uart" ∧
    b.rc_input.pin = ((scanRc lines).getD {}).pin ∧
    b.rc_input.timer = ((scanRc lines).getD {}).timer) ∧
  (definesGet b.defines "HAL_SERIAL_INPUT_ENABLED" ≠ "1" →
    b.rc_input = (scanRc lines).getD {})

/-- C5 (amended): heuristic classification is the final RC input
exactly when the HAL_SERIAL_INPUT_ENABLED define does not hold value
1; when it does, the input type is forced to uart regardless of any
heuristic line, while the scanned pin and timer fields are kept. -/
theorem C5_rc_override (bIds : List (String × Int)) (lines : List String) (b : Board)
    (h : parseBoardLines bIds lines = some b) : C5_concl lines b := by
  rcases parseBoardLines_eq_some h with ⟨st, hfold, rfl⟩
  unfold C5_concl
  rw [postProcess_defines, postProcess_rc]
  constructor
  · intro h1
    unfold rcInputOf
    rw [if_pos h1]
    exact ⟨rfl, rfl, rfl⟩
  · intro h1
    unfold rcInputOf
    rw [if_neg h1]

/-- Witness lines for the amended C5. -/
def linesW5 : List String := ["PA9 TIM1_CH2 TIM1 RCIN PULLDOWN"]

/-- Witness board for the amended C5. -/
def bW5 : Board := (parseBoardLines [] linesW5).getD {}

/-- Witness for the amended C5. -/
theorem C5_rc_override_witness :
    parseBoardLines [] linesW5 = some bW5 ∧ C5_concl linesW5 bW5 :=
  ⟨by decide, C5_rc_override [] linesW5 bW5 (by decide)⟩

/-! Claim C6 (corrected): UART DMA enrichment. -/

/-- Membership after a set insertion. -/
theorem mem_insertSet {s : List String} {p x : String} :
    x ∈ insertSet s p ↔ x ∈ s ∨ x = p := by
  unfold insertSet
  by_cases h : p ∈ s
  · rw [if_pos h]
    constructor
    · exact Or.inl
    · rintro (hx | rfl)
      · exact hx
      · exact h
  · rw [if_neg h]
    simp

/-- Membership after the token scan of one NODMA line. -/
theorem mem_nodmaTokens {parts s : List String} {x : String} :
    x ∈ parts.foldl
        (fun s' p =>
          if pyStartsWith p "USART" = true ∨ pyStartsWith p "UART" = true then insertSet s' p
          else s') s ↔
      x ∈ s ∨ ∃ p ∈ parts,
        (pyStartsWith p "USART" = true ∨ pyStartsWith p "UART" = true) ∧ x = p := by
  induction parts generalizing s with
  | nil => simp
  | cons p ps ih =>
    rw [List.foldl_cons, ih]
    by_cases hc : pyStartsWith p "USART" = true ∨ pyStartsWith p "UART" = true
    · rw [if_pos hc]
      constructor
      · rintro (hx | ⟨q, hq, hcq, heq⟩)
        · rcases mem_insertSet.mp hx with hx | heq
          · exact Or.inl hx
          · exact Or.inr ⟨p, List.mem_cons_self p ps, hc, heq⟩
        · exact Or.inr ⟨q, List.mem_cons_of_mem p hq, hcq, heq⟩
      · rintro (hx | ⟨q, hq, hcq, heq⟩)
        · exact Or.inl (mem_insertSet.mpr (Or.inl hx))
        · rcases List.mem_cons.mp hq with hq0 | hq'
          · exact Or.inl (mem_insertSet.mpr (Or.inr (hq0 ▸ heq)))
          · exact Or.inr ⟨q, hq', hcq, heq⟩
    · rw [if_neg hc]
      constructor
      · rintro (hx | ⟨q, hq, hcq, heq⟩)
        · exact Or.inl hx
        · exact Or.inr ⟨q, List.mem_cons_of_mem p hq, hcq, heq⟩
      · rintro (hx | ⟨q, hq, hcq, heq⟩)
        · exact Or.inl hx
        · rcases List.mem_cons.mp hq with hq0 | hq'
          · exact absurd (hq0 ▸ hcq) hc
          · exact Or.inr ⟨q, hq', hcq, heq⟩

/-- The tokens one line contributes to the NODMA set. -/
def nodmaLineTok (l x : String) : Prop :=
  l ≠ "" ∧ pyStartsWith l "#" = false ∧ pyContains l "NODMA" = true ∧
    ∃ p ∈ pySplit l, (pyStartsWith p "USART" = true ∨ pyStartsWith p "UART" = true) ∧ x = p

/-- Membership after one line of the NODMA scan. -/
theorem mem_nodmaStep {s : List String} {l x : String} :
    x ∈ nodmaStep s l ↔ x ∈ s ∨ nodmaLineTok l x := by
  unfold nodmaStep nodmaLineTok
  by_cases h1 : l = "" ∨ pyStartsWith l "#" = true
  · rw [if_pos h1]
    constructor
    · exact Or.inl
    · rintro (hx | ⟨hne, hh, -, -⟩)
      · exact hx
      · rcases h1 with h1 | h1
        · exact absurd h1 hne
        · rw [h1] at hh
          cases hh
  · rw [if_neg h1]
    rcases not_or.mp h1 with ⟨hne, hh⟩
    have hh' : pyStartsWith l "#" = false := by simpa using hh
    by_cases h2 : pyContains l "NODMA" = true
    · rw [if_pos h2, mem_nodmaTokens]
      constructor
      · rintro (hx | hex)
        · exact Or.inl hx
        · exact Or.inr ⟨hne, hh', h2, hex⟩
      · rintro (hx | ⟨-, -, -, hex⟩)
        · exact Or.inl hx
        · exact Or.inr hex
    · rw [if_neg h2]
      constructor
      · exact Or.inl
      · rintro (hx | ⟨-, -, hc, -⟩)
        · exact hx
        · exact absurd hc h2

/-- Membership in the NODMA fold from any starting set. -/
theorem mem_nodma_fold {lines : List String} {s : List String} {x : String} :
    x ∈ lines.foldl nodmaStep s ↔ x ∈ s ∨ ∃ l ∈ lines, nodmaLineTok l x := by
  induction lines generalizing s with
  | nil => simp
  | cons l ls ih =>
    rw [List.foldl_cons, ih]
    constructor
    · rintro (hx | ⟨l', hl', ht⟩)
      · rcases mem_nodmaStep.mp hx with hx | ht
        · exact Or.inl hx
        · exact Or.inr ⟨l, List.mem_cons_self l ls, ht⟩
      · exact Or.inr ⟨l', List.mem_cons_of_mem l hl', ht⟩
    · rintro (hx | ⟨l', hl', ht⟩)
      · exact Or.inl (mem_nodmaStep.mpr (Or.inl hx))
      · rcases List.mem_cons.mp hl' with rfl | hl''
        · exact Or.inl (mem_nodmaStep.mpr (Or.inr ht))
        · exact Or.inr ⟨l', hl'', ht⟩

/-- Membership in the NODMA negative set: exactly the USART- or
UART-prefixed tokens of the NODMA-containing lines. -/
theorem mem_nodmaOf {lines : List String} {x : String} :
    x ∈ nodmaOf lines ↔ ∃ l ∈ lines, nodmaLineTok l x := by
  unfold nodmaOf
  rw [mem_nodma_fold]
  simp

/-- Channels created by SERIAL_ORDER carry the dataclass defaults. -/
theorem serialOrderUarts_defaults {toks : List String} :
    ∀ u ∈ serialOrderUarts toks,
      u.rx_dma = false ∧ u.tx_dma = false ∧ u.has_tx = true ∧ u.has_rx = true := by
  intro u hu
  rcases List.mem_map.mp hu with ⟨p, -, rfl⟩
  exact ⟨rfl, rfl, rfl, rfl⟩

/-- The finished channel list is the enricher mapped over channels
that still carry their creation defaults. -/
theorem uarts_structure {bIds : List (String × Int)} {lines : List String} {b : Board}
    (h : parseBoardLines bIds lines = some b) :
    ∃ cs : List UartDef,
      (∀ c ∈ cs, c.rx_dma = false ∧ c.tx_dma = false ∧ c.has_tx = true ∧ c.has_rx = true) ∧
      b.uarts = cs.map (updateUart (uartPinsOf lines) (nodmaOf lines)) := by
  rcases parseBoardLines_eq_some h with ⟨st, hfold, rfl⟩
  refine ⟨st.board.uarts, ?_, postProcess_uarts bIds lines st.board⟩
  refine fold_invariant
    (fun bd => ∀ c ∈ bd.uarts,
      c.rx_dma = false ∧ c.tx_dma = false ∧ c.has_tx = true ∧ c.has_rx = true)
    lines ?_ _ _ hfold ?_
  · intro l hl bd undefs _ _ _ _ hP
    rcases process_line_uarts bIds bd undefs (pySplit l) l with hu | hu
    · rw [hu]; exact hP
    · rw [hu]; exact serialOrderUarts_defaults
  · intro c hc
    exact absurd hc (List.not_mem_nil c)

/-- Conclusion of the amended claim C6. -/
def C6_concl (lines : List String) (b : Board) : Prop :=
  (∀ x, x ∈ nodmaOf lines ↔ ∃ l ∈ lines, nodmaLineTok l x) ∧
  ∀ u ∈ b.uarts,
    ((u.is_usb = true ∨ u.is_empty = true) → u.tx_dma = false ∧ u.rx_dma = false) ∧
    (u.is_usb = false → u.is_empty = false →
      u.tx_dma = true ∧ (u.rx_dma = true ↔ u.uart_name ∉ nodmaOf lines))

/-- C6 (amended): the negative set holds exactly the USART- or
UART-prefixed tokens of NODMA lines (LPUART names are not collected),
every non-USB non-empty channel gets TX DMA unconditionally and RX DMA
exactly when its name is outside the negative set, and USB and empty
channels keep both DMA flags false. -/
theorem C6_uart_dma (bIds : List (String × Int)) (lines : List String) (b : Board)
    (h : parseBoardLines bIds lines = some b) : C6_concl lines b := by
  rcases uarts_structure h with ⟨cs, hdef, hmap⟩
  refine ⟨fun x => mem_nodmaOf, ?_⟩
  rw [hmap]
  intro u hu
  rcases List.mem_map.mp hu with ⟨c, hc, hrep⟩
  rcases hdef c hc with ⟨hrx, htx, -, -⟩
  rw [← hrep]
  unfold updateUart
  cases hlk : List.lookup c.uart_name (uartPinsOf lines) with
  | some e =>
    by_cases hcase : ({ c with has_tx := e.tx != "", has_rx := e.rx != "" } :
        UartDef).is_usb = false ∧ ({ c with has_tx := e.tx != "", has_rx := e.rx != "" } :
        UartDef).is_empty = false
    · rw [if_pos hcase]
      constructor
      · rintro (husb | hemp)
        · exact absurd (hcase.1.symm.trans husb) (by decide)
        · exact absurd (hcase.2.symm.trans hemp) (by decide)
      · intro _ _
        refine ⟨rfl, ?_⟩
        constructor
        · intro hrxeq hmem
          have helem : (nodmaOf lines).elem c.uart_name = true := List.elem_iff.mpr hmem
          have hval : (!((nodmaOf lines).elem c.uart_name)) = true := hrxeq
          rw [helem] at hval
          exact absurd hval (by decide)
        · intro hmem
          show (!((nodmaOf lines).elem c.uart_name)) = true
          cases hcon : (nodmaOf lines).elem c.uart_name with
          | false => rfl
          | true => exact absurd (List.elem_iff.mp hcon) hmem
    · rw [if_neg hcase]
      constructor
      · intro _
        exact ⟨htx, hrx⟩
      · intro husb hemp
        exact absurd ⟨husb, hemp⟩ hcase
  | none =>
    by_cases hcase : c.is_usb = false ∧ c.is_empty = false
    · rw [if_pos hcase]
      constructor
      · rintro (husb | hemp)
        · exact absurd (hcase.1.symm.trans husb) (by decide)
        · exact absurd (hcase.2.symm.trans hemp) (by decide)
      · intro _ _
        refine ⟨rfl, ?_⟩
        constructor
        · intro hrxeq hmem
          have helem : (nodmaOf lines).elem c.uart_name = true := List.elem_iff.mpr hmem
          have hval : (!((nodmaOf lines).elem c.uart_name)) = true := hrxeq
          rw [helem] at hval
          exact absurd hval (by decide)
        · intro hmem
          show (!((nodmaOf lines).elem c.uart_name)) = true
          cases hcon : (nodmaOf lines).elem c.uart_name with
          | false => rfl
          | true => exact absurd (List.elem_iff.mp hcon) hmem
    · rw [if_neg hcase]
      constructor
      · intro _
        exact ⟨htx, hrx⟩
      · intro husb hemp
        exact absurd ⟨husb, hemp⟩ hcase

/-- Line list refuting claim C6 as stated: an LPUART channel on a
NODMA line. -/
def linesC6 : List String := ["SERIAL_ORDER LPUART1", "LPUART1 NODMA"]

/-- C6 counterexample: LPUART1 appears on a NODMA line (family
LPUART), so per the claim its channel must lose RX DMA, yet the NODMA
scan only collects USART- and UART-prefixed tokens, the negative set
stays empty and the channel keeps rx_dma true. -/
theorem C6_uart_dma_counterexample :
    pyContains "LPUART1 NODMA" "NODMA" = true ∧
    pyStartsWith "LPUART1" "LPUART" = true ∧
    nodmaOf linesC6 = [] ∧
    ((parseBoardLines [] linesC6).map fun b =>
        b.uarts.map fun u => (u.uart_name, u.is_usb, u.is_empty, u.rx_dma)) =
      some [("LPUART1", false, false, true)] :=
  ⟨by decide, by decide, by decide, by decide⟩

/-- Witness lines for the amended C6. -/
def linesW6 : List String := ["SERIAL_ORDER USART3 OTG1", "USART3 NODMA"]

/-- Witness board for the amended C6. -/
def bW6 : Board := (parseBoardLines [] linesW6).getD {}

/-- Witness for the amended C6. -/
theorem C6_uart_dma_witness :
    parseBoardLines [] linesW6 = some bW6 ∧ C6_concl linesW6 bW6 :=
  ⟨by decide, C6_uart_dma [] linesW6 bW6 (by decide)⟩

/-! Claim C8: sensor detection. -/

/-- Appending a chip keeps the category list duplicate-free. -/
theorem nodup_addChip {l : List String} (c : String) (h : l.Nodup) : (addChip l c).Nodup := by
  unfold addChip
  by_cases hm : pyUpper c ∈ l
  · rw [if_pos hm]; exact h
  · rw [if_neg hm]
    rw [List.nodup_append]
    refine ⟨h, List.nodup_singleton _, ?_⟩
    intro a ha hb
    rw [List.mem_singleton] at hb
    exact hm (hb ▸ ha)

/-- Members of an extended category list. -/
theorem mem_addChip {l : List String} {c x : String} (h : x ∈ addChip l c) :
    x ∈ l ∨ x = pyUpper c := by
  unfold addChip at h
  by_cases hm : pyUpper c ∈ l
  · rw [if_pos hm] at h; exact Or.inl h
  · rw [if_neg hm] at h
    rcases List.mem_append.mp h with h | h
    · exact Or.inl h
    · exact Or.inr (List.mem_singleton.mp h)

/-- The later category steps keep the IMU list. -/
theorem imu_detectBaro (s : BuiltinSensors) (nm : String) : (detectBaro s nm).imu = s.imu := by
  unfold detectBaro
  cases KNOWN_BARO_CHIPS.find? (fun c => pyContains nm c) <;> rfl

/-- detectCompass keeps the IMU list. -/
theorem imu_detectCompass (s : BuiltinSensors) (nm : String) :
    (detectCompass s nm).imu = s.imu := by
  unfold detectCompass
  cases KNOWN_COMPASS_CHIPS.find? (fun c => pyContains nm c) <;> rfl

/-- detectOsd keeps the IMU list. -/
theorem imu_detectOsd (s : BuiltinSensors) (nm : String) : (detectOsd s nm).imu = s.imu := by
  unfold detectOsd
  cases KNOWN_OSD_CHIPS.find? (fun c => pyContains nm c) <;> rfl

/-- detectFlash keeps the IMU list. -/
theorem imu_detectFlash (s : BuiltinSensors) (nm : String) : (detectFlash s nm).imu = s.imu := by
  unfold detectFlash
  cases KNOWN_FLASH_CHIPS.find? (fun c => pyContains nm c) <;> rfl

/-- detectSd keeps the IMU list. -/
theorem imu_detectSd (s : BuiltinSensors) (nm : String) : (detectSd s nm).imu = s.imu := by
  unfold detectSd
  by_cases h : pyContains nm "sdcard" = true ∨ pyContains nm "sd_card" = true
  · rw [if_pos h]
  · rw [if_neg h]

/-- detectImu keeps the barometer list. -/
theorem baro_detectImu (s : BuiltinSensors) (nm : String) :
    (detectImu s nm).barometer = s.barometer := by
  unfold detectImu
  cases KNOWN_IMU_CHIPS.find? (fun c => pyContains nm c) <;> rfl

/-- detectCompass keeps the barometer list. -/
theorem baro_detectCompass (s : BuiltinSensors) (nm : String) :
    (detectCompass s nm).barometer = s.barometer := by
  unfold detectCompass
  cases KNOWN_COMPASS_CHIPS.find? (fun c => pyContains nm c) <;> rfl

/-- detectOsd keeps the barometer list. -/
theorem baro_detectOsd (s : BuiltinSensors) (nm : String) :
    (detectOsd s nm).barometer = s.barometer := by
  unfold detectOsd
  cases KNOWN_OSD_CHIPS.find? (fun c => pyContains nm c) <;> rfl

/-- detectFlash keeps the barometer list. -/
theorem baro_detectFlash (s : BuiltinSensors) (nm : String) :
    (detectFlash s nm).barometer = s.barometer := by
  unfold detectFlash
  cases KNOWN_FLASH_CHIPS.find? (fun c => pyContains nm c) <;> rfl

/-- detectSd keeps the barometer list. -/
theorem baro_detectSd (s : BuiltinSensors) (nm : String) :
    (detectSd s nm).barometer = s.barometer := by
  unfold detectSd
  by_cases h : pyContains nm "sdcard" = true ∨ pyContains nm "sd_card" = true
  · rw [if_pos h]
  · rw [if_neg h]

/-- detectImu keeps the compass list. -/
theorem compass_detectImu (s : BuiltinSensors) (nm : String) :
    (detectImu s nm).compass = s.compass := by
  unfold detectImu
  cases KNOWN_IMU_CHIPS.find? (fun c => pyContains nm c) <;> rfl

/-- detectBaro keeps the compass list. -/
theorem compass_detectBaro (s : BuiltinSensors) (nm : String) :
    (detectBaro s nm).compass = s.compass := by
  unfold detectBaro
  cases KNOWN_BARO_CHIPS.find? (fun c => pyContains nm c) <;> rfl

/-- detectOsd keeps the compass list. -/
theorem compass_detectOsd (s : BuiltinSensors) (nm : String) :
    (detectOsd s nm).compass = s.compass := by
  unfold detectOsd
  cases KNOWN_OSD_CHIPS.find? (fun c => pyContains nm c) <;> rfl

/-- detectFlash keeps the compass list. -/
theorem compass_detectFlash (s : BuiltinSensors) (nm : String) :
    (detectFlash s nm).compass = s.compass := by
  unfold detectFlash
  cases KNOWN_FLASH_CHIPS.find? (fun c => pyContains nm c) <;> rfl

/-- detectSd keeps the compass list. -/
theorem compass_detectSd (s : BuiltinSensors) (nm : String) :
    (detectSd s nm).compass = s.compass := by
  unfold detectSd
  by_cases h : pyContains nm "sdcard" = true ∨ pyContains nm "sd_card" = true
  · rw [if_pos h]
  · rw [if_neg h]

/-- IMU evolution of one detected device. -/
theorem imu_detectDevice (s : BuiltinSensors) (d : SpiDev) :
    (detectDevice s d).imu = s.imu ∨
      ∃ c ∈ KNOWN_IMU_CHIPS, pyContains (pyLower d.name) c = true ∧
        (detectDevice s d).imu = addChip s.imu c := by
  unfold detectDevice
  rw [imu_detectSd, imu_detectFlash, imu_detectOsd, imu_detectCompass, imu_detectBaro]
  unfold detectImu
  cases hf : KNOWN_IMU_CHIPS.find? (fun c => pyContains (pyLower d.name) c) with
  | none => exact Or.inl rfl
  | some c => exact Or.inr ⟨c, List.mem_of_find?_eq_some hf, List.find?_some hf, rfl⟩

/-- Barometer evolution of one detected device. -/
theorem baro_detectDevice (s : BuiltinSensors) (d : SpiDev) :
    (detectDevice s d).barometer = s.barometer ∨
      ∃ c ∈ KNOWN_BARO_CHIPS, pyContains (pyLower d.name) c = true ∧
        (detectDevice s d).barometer = addChip s.barometer c := by
  unfold detectDevice
  rw [baro_detectSd, baro_detectFlash, baro_detectOsd, baro_detectCompass]
  unfold detectBaro
  cases hf : KNOWN_BARO_CHIPS.find? (fun c => pyContains (pyLower d.name) c) with
  | none => exact Or.inl (baro_detectImu s (pyLower d.name))
  | some c =>
    refine Or.inr ⟨c, List.mem_of_find?_eq_some hf, List.find?_some hf, ?_⟩
    rw [show ({ detectImu s (pyLower d.name) with
        barometer := addChip (detectImu s (pyLower d.name)).barometer c } :
          BuiltinSensors).barometer =
        addChip (detectImu s (pyLower d.name)).barometer c from rfl,
      baro_detectImu]

/-- Compass evolution of one detected device. -/
theorem compass_detectDevice (s : BuiltinSensors) (d : SpiDev) :
    (detectDevice s d).compass = s.compass ∨
      ∃ c ∈ KNOWN_COMPASS_CHIPS, pyContains (pyLower d.name) c = true ∧
        (detectDevice s d).compass = addChip s.compass c := by
  unfold detectDevice
  rw [compass_detectSd, compass_detectFlash, compass_detectOsd]
  unfold detectCompass
  cases hf : KNOWN_COMPASS_CHIPS.find? (fun c => pyContains (pyLower d.name) c) with
  | none =>
    rw [compass_detectBaro, compass_detectImu]
    exact Or.inl rfl
  | some c =>
    refine Or.inr ⟨c, List.mem_of_find?_eq_some hf, List.find?_some hf, ?_⟩
    rw [show ({ detectBaro (detectImu s (pyLower d.name)) (pyLower d.name) with
        compass := addChip
          (detectBaro (detectImu s (pyLower d.name)) (pyLower d.name)).compass c } :
          BuiltinSensors).compass =
        addChip (detectBaro (detectImu s (pyLower d.name)) (pyLower d.name)).compass c from rfl,
      compass_detectBaro, compass_detectImu]

/-- The detection fold keeps the IMU list duplicate-free. -/
theorem detect_fold_imu_nodup (devs : List SpiDev) :
    ∀ s : BuiltinSensors, s.imu.Nodup → ((devs.foldl detectDevice s).imu).Nodup := by
  induction devs with
  | nil => exact fun s hs => hs
  | cons d ds ih =>
    intro s hs
    rw [List.foldl_cons]
    refine ih _ ?_
    rcases imu_detectDevice s d with h | ⟨c, -, -, h⟩
    · rw [h]; exact hs
    · rw [h]; exact nodup_addChip c hs

/-- Every IMU entry comes from a matching known chip. -/
theorem detect_fold_imu_sound (devs : List SpiDev) :
    ∀ (s : BuiltinSensors) (x : String), x ∈ (devs.foldl detectDevice s).imu →
      x ∈ s.imu ∨ ∃ c ∈ KNOWN_IMU_CHIPS, x = pyUpper c ∧
        ∃ d ∈ devs, pyContains (pyLower d.name) c = true := by
  induction devs with
  | nil => exact fun s x hx => Or.inl hx
  | cons d ds ih =>
    intro s x hx
    rw [List.foldl_cons] at hx
    rcases ih _ x hx with hx' | ⟨c, hc, hup, d', hd', hcon⟩
    · rcases imu_detectDevice s d with h | ⟨c, hc, hcon, h⟩
      · rw [h] at hx'; exact Or.inl hx'
      · rw [h] at hx'
        rcases mem_addChip hx' with hx'' | hup
        · exact Or.inl hx''
        · exact Or.inr ⟨c, hc, hup, d, List.mem_cons_self d ds, hcon⟩
    · exact Or.inr ⟨c, hc, hup, d', List.mem_cons_of_mem d hd', hcon⟩

/-- The detection fold keeps the barometer list duplicate-free. -/
theorem detect_fold_baro_nodup (devs : List SpiDev) :
    ∀ s : BuiltinSensors, s.barometer.Nodup → ((devs.foldl detectDevice s).barometer).Nodup := by
  induction devs with
  | nil => exact fun s hs => hs
  | cons d ds ih =>
    intro s hs
    rw [List.foldl_cons]
    refine ih _ ?_
    rcases baro_detectDevice s d with h | ⟨c, -, -, h⟩
    · rw [h]; exact hs
    · rw [h]; exact nodup_addChip c hs

/-- Every barometer entry comes from a matching known chip. -/
theorem detect_fold_baro_sound (devs : List SpiDev) :
    ∀ (s : BuiltinSensors) (x : String), x ∈ (devs.foldl detectDevice s).barometer →
      x ∈ s.barometer ∨ ∃ c ∈ KNOWN_BARO_CHIPS, x = pyUpper c ∧
        ∃ d ∈ devs, pyContains (pyLower d.name) c = true := by
  induction devs with
  | nil => exact fun s x hx => Or.inl hx
  | cons d ds ih =>
    intro s x hx
    rw [List.foldl_cons] at hx
    rcases ih _ x hx with hx' | ⟨c, hc, hup, d', hd', hcon⟩
    · rcases baro_detectDevice s d with h | ⟨c, hc, hcon, h⟩
      · rw [h] at hx'; exact Or.inl hx'
      · rw [h] at hx'
        rcases mem_addChip hx' with hx'' | hup
        · exact Or.inl hx''
        · exact Or.inr ⟨c, hc, hup, d, List.mem_cons_self d ds, hcon⟩
    · exact Or.inr ⟨c, hc, hup, d', List.mem_cons_of_mem d hd', hcon⟩

/-- The detection fold keeps the compass list duplicate-free. -/
theorem detect_fold_compass_nodup (devs : List SpiDev) :
    ∀ s : BuiltinSensors, s.compass.Nodup → ((devs.foldl detectDevice s).compass).Nodup := by
  induction devs with
  | nil => exact fun s hs => hs
  | cons d ds ih =>
    intro s hs
    rw [List.foldl_cons]
    refine ih _ ?_
    rcases compass_detectDevice s d with h | ⟨c, -, -, h⟩
    · rw [h]; exact hs
    · rw [h]; exact nodup_addChip c hs

/-- Every compass entry comes from a matching known chip. -/
theorem detect_fold_compass_sound (devs : List SpiDev) :
    ∀ (s : BuiltinSensors) (x : String), x ∈ (devs.foldl detectDevice s).compass →
      x ∈ s.compass ∨ ∃ c ∈ KNOWN_COMPASS_CHIPS, x = pyUpper c ∧
        ∃ d ∈ devs, pyContains (pyLower d.name) c = true := by
  induction devs with
  | nil => exact fun s x hx => Or.inl hx
  | cons d ds ih =>
    intro s x hx
    rw [List.foldl_cons] at hx
    rcases ih _ x hx with hx' | ⟨c, hc, hup, d', hd', hcon⟩
    · rcases compass_detectDevice s d with h | ⟨c, hc, hcon, h⟩
      · rw [h] at hx'; exact Or.inl hx'
      · rw [h] at hx'
        rcases mem_addChip hx' with hx'' | hup
        · exact Or.inl hx''
        · exact Or.inr ⟨c, hc, hup, d, List.mem_cons_self d ds, hcon⟩
    · exact Or.inr ⟨c, hc, hup, d', List.mem_cons_of_mem d hd', hcon⟩

/-- Conclusion of claim C8: every sensor category list is duplicate
free and holds only upper-cased names of known chips that are
substrings of some collected device name, and scenario C yields
exactly the one-element IMU list. -/
def C8_concl (b : Board) : Prop :=
  b.sensors.imu.Nodup ∧ b.sensors.barometer.Nodup ∧ b.sensors.compass.Nodup ∧
  (∀ x ∈ b.sensors.imu, ∃ c ∈ KNOWN_IMU_CHIPS, x = pyUpper c ∧
    ∃ d ∈ b.spi_devices, pyContains (pyLower d.name) c = true) ∧
  (∀ x ∈ b.sensors.barometer, ∃ c ∈ KNOWN_BARO_CHIPS, x = pyUpper c ∧
    ∃ d ∈ b.spi_devices, pyContains (pyLower d.name) c = true) ∧
  (∀ x ∈ b.sensors.compass, ∃ c ∈ KNOWN_COMPASS_CHIPS, x = pyUpper c ∧
    ∃ d ∈ b.spi_devices, pyContains (pyLower d.name) c = true) ∧
  ((parseBoardLines [] ["SPIDEV icm42688 SPI1 DEVID1 IMU_CS"]).map
      fun bb => bb.sensors.imu) = some ["ICM42688"]

/-- C8: sensor detection matches lower-cased device names by substring
containment against the known chip sets and appends the upper-cased
chip name to a category list at most once; the board whose only SPIDEV
line is the icm42688 line ends with the IMU list ICM42688. -/
theorem C8_sensor_detection (bIds : List (String × Int)) (lines : List String) (b : Board)
    (h : parseBoardLines bIds lines = some b) : C8_concl b := by
  rcases parseBoardLines_eq_some h with ⟨st, hfold, rfl⟩
  have hempty : st.board.sensors.imu = [] ∧ st.board.sensors.barometer = [] ∧
      st.board.sensors.compass = [] := by
    refine fold_invariant
      (fun bd => bd.sensors.imu = [] ∧ bd.sensors.barometer = [] ∧ bd.sensors.compass = [])
      lines ?_ _ _ hfold ⟨rfl, rfl, rfl⟩
    intro l hl bd undefs _ _ _ _ hP
    rcases process_line_sensor_lists bIds bd undefs (pySplit l) l with ⟨h1, h2, h3⟩
    exact ⟨h1.trans hP.1, h2.trans hP.2.1, h3.trans hP.2.2⟩
  have hsens := postProcess_sensors bIds lines st.board
  have hspi := postProcess_spi bIds lines st.board
  unfold C8_concl
  rw [hsens, hspi]
  refine ⟨?_, ?_, ?_, ?_, ?_, ?_, by decide⟩
  · exact detect_fold_imu_nodup _ _ (by rw [hempty.1]; exact List.nodup_nil)
  · exact detect_fold_baro_nodup _ _ (by rw [hempty.2.1]; exact List.nodup_nil)
  · exact detect_fold_compass_nodup _ _ (by rw [hempty.2.2]; exact List.nodup_nil)
  · intro x hx
    rcases detect_fold_imu_sound _ _ x hx with hx' | hx'
    · rw [hempty.1] at hx'; exact absurd hx' (List.not_mem_nil x)
    · exact hx'
  · intro x hx
    rcases detect_fold_baro_sound _ _ x hx with hx' | hx'
    · rw [hempty.2.1] at hx'; exact absurd hx' (List.not_mem_nil x)
    · exact hx'
  · intro x hx
    rcases detect_fold_compass_sound _ _ x hx with hx' | hx'
    · rw [hempty.2.2] at hx'; exact absurd hx' (List.not_mem_nil x)
    · exact hx'

/-- Witness lines for C8. -/
def linesW8 : List String := ["SPIDEV icm42688 SPI1 DEVID1 IMU_CS"]

/-- Witness board for C8. -/
def bW8 : Board := (parseBoardLines [] linesW8).getD {}

/-- Witness for C8 at scenario C. -/
theorem C8_sensor_detection_witness :
    parseBoardLines [] linesW8 = some bW8 ∧ C8_concl bW8 :=
  ⟨by decide, C8_sensor_detection [] linesW8 bW8 (by decide)⟩

/-! Claim C2: the output groups partition the output pins. -/

/-- A filter and its complement permute back to the list. -/
theorem filter_not_filter_perm (p : α → Bool) (l : List α) :
    (l.filter p ++ l.filter fun a => !(p a)).Perm l := by
  induction l with
  | nil => simp
  | cons a t ih =>
    by_cases h : p a
    · simpa [h] using ih.cons a
    · simp only [List.filter_cons, h, Bool.not_false, if_true, if_false]
      exact List.perm_middle.trans (ih.cons a)

/-- flatMap respects pointwise equality on members. -/
theorem flatMap_congr_mem {f g : α → List β} :
    ∀ {l : List α}, (∀ a ∈ l, f a = g a) → l.flatMap f = l.flatMap g
  | [], _ => rfl
  | a :: t, h => by
    simp only [List.flatMap_cons]
    rw [h a (List.mem_cons_self a t), flatMap_congr_mem fun x hx => h x (List.mem_cons_of_mem a hx)]

/-- flatMap respects pointwise permutation on members. -/
theorem flatMap_perm_congr {f g : α → List β} :
    ∀ {l : List α}, (∀ a ∈ l, (f a).Perm (g a)) → (l.flatMap f).Perm (l.flatMap g)
  | [], _ => List.Perm.refl _
  | a :: t, h => by
    simp only [List.flatMap_cons]
    exact (h a (List.mem_cons_self a t)).append
      (flatMap_perm_congr fun x hx => h x (List.mem_cons_of_mem a hx))

/-- Filtering a list through a duplicate-free cover of its timers is a
permutation of the list. -/
theorem flatMap_filter_timer_perm :
    ∀ (ts : List String) (pins : List OutputPin), ts.Nodup →
      (∀ p ∈ pins, p.timer ∈ ts) →
      (ts.flatMap fun t => pins.filter fun p => p.timer == t).Perm pins
  | [], pins, _, hall => by
    have hnil : pins = [] := by
      cases pins with
      | nil => rfl
      | cons p t => exact absurd (hall p (List.mem_cons_self p t)) (List.not_mem_nil _)
    simp [hnil]
  | t :: ts, pins, hnd, hall => by
    have htn : t ∉ ts := (List.nodup_cons.mp hnd).1
    have hts : ts.Nodup := (List.nodup_cons.mp hnd).2
    simp only [List.flatMap_cons]
    have hstep : ∀ t' ∈ ts,
        (pins.filter fun p => p.timer == t') =
          ((pins.filter fun p => !(p.timer == t)).filter fun p => p.timer == t') := by
      intro t' ht'
      rw [List.filter_filter]
      refine List.filter_congr ?_
      intro p _
      by_cases hp : p.timer = t'
      · have hne' : t' ≠ t := fun hEq => htn (hEq ▸ ht')
        simp [hp, hne']
      · simp [hp]
    rw [flatMap_congr_mem hstep]
    have hall' : ∀ p ∈ pins.filter fun p => !(p.timer == t), p.timer ∈ ts := by
      intro p hp
      rcases List.mem_filter.mp hp with ⟨hmem, hne⟩
      have := hall p hmem
      rcases List.mem_cons.mp this with hEq | h
      · exact absurd hEq (by simpa using hne)
      · exact h
    have ihp := flatMap_filter_timer_perm ts (pins.filter fun p => !(p.timer == t)) hts hall'
    exact (ihp.append_left (pins.filter fun p => p.timer == t)).trans
      (filter_not_filter_perm (fun p => p.timer == t) pins)

/-- Timer cover used by the synthesizer is duplicate-free. -/
theorem groupTimers_nodup (pins : List OutputPin) : (groupTimers pins).Nodup :=
  (List.perm_insertionSort _ _).nodup_iff.mpr (List.nodup_dedup _)

/-- Membership in the timer cover. -/
theorem mem_groupTimers {pins : List OutputPin} {t : String} :
    t ∈ groupTimers pins ↔ ∃ p ∈ pins, p.timer = t := by
  unfold groupTimers
  rw [List.mem_insertionSort, List.mem_dedup, List.mem_map]

/-- The outputs of one synthesized group permute the member numbers. -/
theorem outputs_mkOutputGroup_perm (pins : List OutputPin) (t : String) :
    ((mkOutputGroup pins t).outputs).Perm ((membersOf pins t).map fun p => p.number) :=
  List.perm_insertionSort _ _

/-- Membership in the outputs of one synthesized group. -/
theorem mem_outputs_mkOutputGroup {pins : List OutputPin} {t : String} {n : Nat} :
    n ∈ (mkOutputGroup pins t).outputs ↔ ∃ p ∈ pins, p.timer = t ∧ p.number = n := by
  have h1 : n ∈ (mkOutputGroup pins t).outputs ↔
      n ∈ (membersOf pins t).map fun p => p.number :=
    (outputs_mkOutputGroup_perm pins t).mem_iff
  rw [h1, List.mem_map]
  constructor
  · rintro ⟨p, hp, rfl⟩
    exact ⟨p, (mem_membersOf.mp hp).1, (mem_membersOf.mp hp).2, rfl⟩
  · rintro ⟨p, hp, ht, rfl⟩
    exact ⟨p, mem_membersOf.mpr ⟨hp, ht⟩, rfl⟩

/-- The concatenation of all group outputs permutes the list of all
pin numbers. -/
theorem flatten_groups_perm (pins : List OutputPin) :
    ((compute_output_groups pins).flatMap fun g => g.outputs).Perm
      (pins.map fun p => p.number) := by
  unfold compute_output_groups
  rw [List.flatMap_map]
  have h1 : ((groupTimers pins).flatMap fun t => (mkOutputGroup pins t).outputs).Perm
      ((groupTimers pins).flatMap fun t => (membersOf pins t).map fun p => p.number) :=
    flatMap_perm_congr fun t _ => outputs_mkOutputGroup_perm pins t
  have h2 : ((groupTimers pins).flatMap fun t => (membersOf pins t).map fun p => p.number) =
      ((groupTimers pins).flatMap fun t => membersOf pins t).map fun p => p.number := by
    rw [List.map_flatMap]
  have h3 : (((groupTimers pins).flatMap fun t => membersOf pins t).map fun p => p.number).Perm
      (pins.map fun p => p.number) := by
    refine List.Perm.map _ ?_
    exact flatMap_filter_timer_perm (groupTimers pins) pins (groupTimers_nodup pins)
      fun p hp => mem_groupTimers.mpr ⟨p, hp, rfl⟩
  exact (h1.trans (h2 ▸ List.Perm.refl _)).trans h3

/-- With duplicate-free pin numbers, pins with equal numbers are
equal. -/
theorem number_inj {pins : List OutputPin}
    (hnd : (pins.map fun p => p.number).Nodup) :
    ∀ p ∈ pins, ∀ q ∈ pins, p.number = q.number → p = q := by
  intro p hp q hq h
  exact List.inj_on_of_nodup_map hnd hp hq h

/-- The timers of the emitted groups are exactly the sorted cover. -/
theorem map_timer_groups (pins : List OutputPin) :
    ((compute_output_groups pins).map fun g => g.timer) = groupTimers pins := by
  unfold compute_output_groups
  rw [List.map_map]
  have hco : ((fun g : OutputGroup => g.timer) ∘ mkOutputGroup pins) = id := rfl
  rw [hco, List.map_id]

/-- Conclusion of claim C2: the union of the group outputs is exactly
the pin-number multiset with no duplicates, every pin number lies in
exactly one group, group sharing is timer sharing, member lists are
ascending and groups are emitted in strictly ascending timer order. -/
def C2_concl (pins : List OutputPin) : Prop :=
  (((compute_output_groups pins).flatMap fun g => g.outputs).Perm
      (pins.map fun p => p.number)) ∧
  ((compute_output_groups pins).flatMap fun g => g.outputs).Nodup ∧
  (∀ p ∈ pins, ∃! g, g ∈ compute_output_groups pins ∧ p.number ∈ g.outputs) ∧
  (∀ p ∈ pins, ∀ q ∈ pins,
    ((∃ g ∈ compute_output_groups pins, p.number ∈ g.outputs ∧ q.number ∈ g.outputs) ↔
      p.timer = q.timer)) ∧
  (∀ g ∈ compute_output_groups pins, g.outputs.Sorted (fun a b => a ≤ b)) ∧
  ((compute_output_groups pins).map fun g => g.timer).Sorted (fun a b => a < b)

/-- C2: after synthesis, with the data-model invariant that output
numbers are unique within a board, every OutputPin number appears in
exactly one OutputGroup, membership is determined solely by the timer,
the union of the groups equals the pin-number set without duplicates,
members are sorted ascending and groups are in ascending timer-name
order. -/
theorem C2_output_groups_partition (pins : List OutputPin)
    (hnd : (pins.map fun p => p.number).Nodup) : C2_concl pins := by
  have hperm := flatten_groups_perm pins
  have hinj := number_inj hnd
  refine ⟨hperm, hperm.nodup_iff.mpr hnd, ?_, ?_, ?_, ?_⟩
  · -- exactly one group
    intro p hp
    refine ⟨mkOutputGroup pins p.timer, ⟨?_, ?_⟩, ?_⟩
    · exact mem_compute_output_groups.mpr ⟨p.timer, mem_groupTimers.mpr ⟨p, hp, rfl⟩, rfl⟩
    · exact mem_outputs_mkOutputGroup.mpr ⟨p, hp, rfl, rfl⟩
    · rintro g ⟨hg, hmem⟩
      rcases mem_compute_output_groups.mp hg with ⟨t, -, rfl⟩
      rcases mem_outputs_mkOutputGroup.mp hmem with ⟨q, hq, hqt, hqn⟩
      have : q = p := hinj q hq p hp hqn
      subst this
      rw [hqt]
  · -- group sharing is timer sharing
    intro p hp q hq
    constructor
    · rintro ⟨g, hg, hpm, hqm⟩
      rcases mem_compute_output_groups.mp hg with ⟨t, -, rfl⟩
      rcases mem_outputs_mkOutputGroup.mp hpm with ⟨p', hp', hp't, hp'n⟩
      rcases mem_outputs_mkOutputGroup.mp hqm with ⟨q', hq', hq't, hq'n⟩
      have hpp : p' = p := hinj p' hp' p hp hp'n
      have hqq : q' = q := hinj q' hq' q hq hq'n
      subst hpp; subst hqq
      rw [hp't, hq't]
    · intro h
      refine ⟨mkOutputGroup pins p.timer,
        mem_compute_output_groups.mpr ⟨p.timer, mem_groupTimers.mpr ⟨p, hp, rfl⟩, rfl⟩,
        mem_outputs_mkOutputGroup.mpr ⟨p, hp, rfl, rfl⟩,
        mem_outputs_mkOutputGroup.mpr ⟨q, hq, h.symm, rfl⟩⟩
  · -- member lists ascending
    intro g hg
    rcases mem_compute_output_groups.mp hg with ⟨t, -, rfl⟩
    exact List.sorted_insertionSort _ _
  · -- groups in strictly ascending timer order
    rw [map_timer_groups]
    refine List.Sorted.lt_of_le ?_ (groupTimers_nodup pins)
    exact List.sorted_insertionSort _ _

/-- Concrete pin list for the C2 witness. -/
def pinsW2 : List OutputPin :=
  [{ number := 3, timer := "TIM12", timer_channel := "TIM12_CH1" },
   { number := 1, timer := "TIM1", timer_channel := "TIM1_CH1" },
   { number := 2, timer := "TIM1", timer_channel := "TIM1_CH2" }]

/-- Witness for C2 at a concrete board. -/
theorem C2_output_groups_partition_witness :
    (pinsW2.map fun p => p.number).Nodup ∧ C2_concl pinsW2 :=
  ⟨by decide, C2_output_groups_partition pinsW2 (by decide)⟩

/-! Claim C3: SERIAL_ORDER processing. -/

/-- Conclusion of claim C3: channel count equals token count; the
channel at index i carries serial index i and the i-th token as its
hardware name, is empty exactly on the EMPTY token and is USB exactly
on an OTG-prefixed or USB token; and scenario A produces the three
expected channels. -/
def C3_concl (toks : List String) (i : Nat) (u : UartDef) : Prop :=
  (serialOrderUarts toks).length = toks.length ∧
  u.serial_index = i ∧
  toks.get? i = some u.uart_name ∧
  (u.is_empty = true ↔ u.uart_name = "EMPTY") ∧
  (u.is_usb = true ↔ (pyStartsWith u.uart_name "OTG" = true ∨ u.uart_name = "USB")) ∧
  (parseBoardLines [] ["SERIAL_ORDER OTG1 USART1 EMPTY"]).map
      (fun b => b.uarts.map (fun v => (v.serial_index, v.is_usb, v.is_empty, v.uart_name)))
    = some [(0, true, false, "OTG1"), (1, false, false, "USART1"), (2, false, true, "EMPTY")]

/-- C3: SERIAL_ORDER creates one UartChannel per token at that token's
index, with is_empty exactly on EMPTY and is_usb exactly on OTG-prefix
or USB tokens; the scenario line yields the three expected channels. -/
theorem C3_serial_order_channels (toks : List String) (i : Nat) (u : UartDef)
    (h : (serialOrderUarts toks).get? i = some u) : C3_concl toks i u := by
  have h' : ((toks.get? i).map fun a =>
      ({ serial_index := i, uart_name := a,
         is_usb := pyStartsWith a "OTG" || a == "USB",
         is_empty := a == "EMPTY" } : UartDef)) = some u := by
    simpa [serialOrderUarts, List.get?_map, List.get?_enum] using h
  cases htoks : toks.get? i with
  | none => rw [htoks] at h'; simp at h'
  | some a =>
    rw [htoks] at h'
    simp only [Option.map_some', Option.some.injEq] at h'
    subst h'
    refine ⟨by simp [serialOrderUarts], rfl, by simpa using htoks, ?_, ?_, by decide⟩
    · simp [beq_iff_eq]
    · simp [Bool.or_eq_true, beq_iff_eq]

/-- Token list for the C3 witness. -/
def toksW3 : List String := ["OTG1", "USART1", "EMPTY"]

/-- First channel of the C3 witness board. -/
def uW3 : UartDef := { serial_index := 0, uart_name := "OTG1", is_usb := true }

/-- Witness for C3 at the scenario tokens. -/
theorem C3_serial_order_channels_witness :
    (serialOrderUarts toksW3).get? 0 = some uW3 ∧ C3_concl toksW3 0 uW3 :=
  ⟨by decide, C3_serial_order_channels toksW3 0 uW3 (by decide)⟩

/-! Claim C7: include resolution depth cap and truncation. -/

/-- Filesystem of scenario D: one file including itself. -/
def selfIncludeFs : String → Option (List String) :=
  fun p => if p = "sub.dat" then some ["L1", "include sub.dat"] else none

/-- Trivial path join for scenario D. -/
def selfIncludePj : String → String → String := fun _ inc => inc

/-- C7: include resolution is total; a call past the depth cap of 10
returns the empty flattened sequence instead of raising, and the file
that includes itself yields, from depth 0, the truncated but non-empty
line sequence of the eleven processed levels. -/
theorem C7_include_depth_cap :
    (∀ (fs : String → Option (List String)) (pj : String → String → String)
        (fp : String) (depth : Nat), 10 < depth → resolve_lines fs pj fp depth = []) ∧
    resolve_lines selfIncludeFs selfIncludePj "sub.dat" 0 = List.replicate 11 "L1" ∧
    resolve_lines selfIncludeFs selfIncludePj "sub.dat" 0 ≠ [] := by
  refine ⟨?_, by decide, by decide⟩
  intro fs pj fp depth h
  unfold resolve_lines
  rw [Nat.sub_eq_zero_of_le (by omega)]
  rfl

/-- Witness for C7 just past the cap. -/
theorem C7_include_depth_cap_witness :
    10 < 11 ∧ resolve_lines selfIncludeFs selfIncludePj "sub.dat" 11 = [] :=
  ⟨by decide, C7_include_depth_cap.1 selfIncludeFs selfIncludePj "sub.dat" 11 (by decide)⟩

/-! Claim C10: has_tx and has_rx after UART enrichment. -/

/-- Tokens produced by the whitespace splitter are never empty. -/
theorem wsTokensAux_ne_nil (l : List Char) :
    ∀ (acc : List Char), ∀ t ∈ wsTokensAux l acc, t ≠ [] := by
  induction l with
  | nil =>
    intro acc t ht
    unfold wsTokensAux at ht
    by_cases h : acc.isEmpty
    · rw [if_pos h] at ht
      exact absurd ht (List.not_mem_nil t)
    · rw [if_neg h] at ht
      rw [List.mem_singleton] at ht
      subst ht
      intro hc
      exact h (List.isEmpty_iff.mpr (List.reverse_eq_nil_iff.mp hc))
  | cons c cs ih =>
    intro acc t ht
    unfold wsTokensAux at ht
    by_cases hw : c.isWhitespace
    · rw [if_pos hw] at ht
      by_cases h : acc.isEmpty
      · rw [if_pos h] at ht
        exact ih [] t ht
      · rw [if_neg h] at ht
        rcases List.mem_cons.mp ht with heq | ht'
        · subst heq
          intro hc
          exact h (List.isEmpty_iff.mpr (List.reverse_eq_nil_iff.mp hc))
        · exact ih [] t ht'
    · rw [if_neg hw] at ht
      exact ih (c :: acc) t ht

/-- Whitespace-split tokens are nonempty strings. -/
theorem mem_pySplit_ne {s t : String} (h : t ∈ pySplit s) : t ≠ "" := by
  unfold pySplit at h
  rcases List.mem_map.mp h with ⟨l, hl, rfl⟩
  intro hc
  exact wsTokensAux_ne_nil s.data [] l hl (congrArg String.data hc)

/-- A line whose function token records channel nm in the uart_pins
scan: non-blank, not a comment, at least two tokens, the second token
passing the UART-family and direction guard and naming nm before its
last underscore. -/
def uartRecLine (nm l : String) : Prop :=
  ¬(l = "" ∨ pyStartsWith l "#" = true) ∧ 2 ≤ (pySplit l).length ∧
  uartFuncMatches ((pySplit l).getD 1 "") = true ∧
  beforeLastUnderscore ((pySplit l).getD 1 "") = nm

/-- A recording line taking the TX branch of the scan. -/
def uartRecTx (nm l : String) : Prop :=
  uartRecLine nm l ∧ pyContains ((pySplit l).getD 1 "") "_TX" = true

/-- A recording line taking the RX branch of the scan (the source's
elif: only when the function token has no TX marker). -/
def uartRecRx (nm l : String) : Prop :=
  uartRecLine nm l ∧ pyContains ((pySplit l).getD 1 "") "_TX" = false ∧
  pyContains ((pySplit l).getD 1 "") "_RX" = true

/-- The uart_pins invariant for one channel name: either the name was
never recorded and absent from the map, or it is bound to an entry
whose tx and rx fields are nonempty exactly when the matching
direction was recorded. -/
def uartInv (nm : String) (lines : List String) (m : List (String × PinRec)) : Prop :=
  (List.lookup nm m = none ∧ ∀ l ∈ lines, ¬ uartRecLine nm l) ∨
  (∃ e : PinRec, List.lookup nm m = some e ∧
    (∃ l ∈ lines, uartRecLine nm l) ∧
    (e.tx ≠ "" ↔ ∃ l ∈ lines, uartRecTx nm l) ∧
    (e.rx ≠ "" ↔ ∃ l ∈ lines, uartRecRx nm l))

/-- A line recording nothing for nm extends the uart_pins invariant
when the map's binding for nm is unchanged. -/
theorem uartInv_extend_skip {nm a : String} {ls : List String}
    {m m' : List (String × PinRec)}
    (hlk : List.lookup nm m' = List.lookup nm m)
    (hnot : ¬ uartRecLine nm a)
    (ih : uartInv nm ls m) : uartInv nm (ls ++ [a]) m' := by
  rcases ih with ⟨hnone, hno⟩ | ⟨e, hsome, hex, htx, hrx⟩
  · left
    refine ⟨hlk.trans hnone, ?_⟩
    intro l hl
    rcases List.mem_append.mp hl with h | h
    · exact hno l h
    · rw [List.mem_singleton] at h
      exact h ▸ hnot
  · right
    refine ⟨e, hlk.trans hsome, ?_, ?_, ?_⟩
    · rcases hex with ⟨l, hl, hrec⟩
      exact ⟨l, List.mem_append_left _ hl, hrec⟩
    · constructor
      · intro he
        rcases htx.mp he with ⟨l, hl, hr⟩
        exact ⟨l, List.mem_append_left _ hl, hr⟩
      · rintro ⟨l, hl, hr⟩
        rcases List.mem_append.mp hl with h | h
        · exact htx.mpr ⟨l, h, hr⟩
        · rw [List.mem_singleton] at h
          exact absurd (h ▸ hr).1 hnot
    · constructor
      · intro he
        rcases hrx.mp he with ⟨l, hl, hr⟩
        exact ⟨l, List.mem_append_left _ hl, hr⟩
      · rintro ⟨l, hl, hr⟩
        rcases List.mem_append.mp hl with h | h
        · exact hrx.mpr ⟨l, h, hr⟩
        · rw [List.mem_singleton] at h
          exact absurd (h ▸ hr).1 hnot

/-- The uart_pins map satisfies the per-name invariant over the whole
line sequence. -/
theorem lookup_uartPinsOf (nm : String) (lines : List String) :
    uartInv nm lines (uartPinsOf lines) := by
  induction lines using List.reverseRecOn with
  | nil =>
    exact Or.inl ⟨rfl, fun l hl => absurd hl (List.not_mem_nil l)⟩
  | append_singleton ls a ih =>
    have hstep : uartPinsOf (ls ++ [a]) = uartPinsStep (uartPinsOf ls) a := by
      unfold uartPinsOf
      rw [List.foldl_append, List.foldl_cons, List.foldl_nil]
    rw [hstep]
    by_cases h1 : a = "" ∨ pyStartsWith a "#" = true
    · have hm : uartPinsStep (uartPinsOf ls) a = uartPinsOf ls := by
        unfold uartPinsStep
        rw [if_pos h1]
      rw [hm]
      exact uartInv_extend_skip rfl (fun hr => hr.1 h1) ih
    · by_cases h2 : (pySplit a).length < 2
      · have hm : uartPinsStep (uartPinsOf ls) a = uartPinsOf ls := by
          simp only [uartPinsStep]
          rw [if_neg h1, if_pos h2]
        rw [hm]
        exact uartInv_extend_skip rfl (fun hr => absurd hr.2.1 (by omega)) ih
      · by_cases h3 : uartFuncMatches ((pySplit a).getD 1 "") = true
        · by_cases h4 : beforeLastUnderscore ((pySplit a).getD 1 "") = nm
          · -- the line records nm
            have hrec : uartRecLine nm a := ⟨h1, by omega, h3, h4⟩
            have hpin : (pySplit a).getD 0 "" ≠ "" := by
              have h0 : 0 < (pySplit a).length := by omega
              have hmem0 : (pySplit a).getD 0 "" ∈ pySplit a := by
                rw [List.getD_eq_getElem _ _ h0]
                exact List.getElem_mem h0
              exact mem_pySplit_ne hmem0
            have hm : uartPinsStep (uartPinsOf ls) a =
                dictInsert (uartPinsOf ls) nm
                  (if pyContains ((pySplit a).getD 1 "") "_TX" = true then
                    { (List.lookup nm (uartPinsOf ls)).getD {} with
                        tx := (pySplit a).getD 0 "" }
                  else if pyContains ((pySplit a).getD 1 "") "_RX" = true then
                    { (List.lookup nm (uartPinsOf ls)).getD {} with
                        rx := (pySplit a).getD 0 "" }
                  else (List.lookup nm (uartPinsOf ls)).getD {}) := by
              simp only [uartPinsStep]
              rw [if_neg h1, if_neg h2, if_pos h3, h4]
            rw [hm]
            have hoextend : ∀ (P : String → Prop), ¬ P a →
                ((∃ l ∈ ls, P l) ↔ ∃ l ∈ ls ++ [a], P l) := by
              intro P hP
              constructor
              · rintro ⟨l, hl, h⟩
                exact ⟨l, List.mem_append_left _ hl, h⟩
              · rintro ⟨l, hl, h⟩
                rcases List.mem_append.mp hl with hm' | hm'
                · exact ⟨l, hm', h⟩
                · rw [List.mem_singleton] at hm'
                  exact absurd (hm' ▸ h) hP
            have hbase : ((List.lookup nm (uartPinsOf ls)).getD {}).tx ≠ "" ↔
                  (∃ l ∈ ls, uartRecTx nm l) := by
              rcases ih with ⟨hnone, hno⟩ | ⟨e, hsome, -, htx, -⟩
              · rw [hnone]
                simp only [Option.getD_none]
                constructor
                · intro hc
                  exact absurd rfl hc
                · rintro ⟨l, hl, hr⟩
                  exact absurd hr.1 (hno l hl)
              · rw [hsome]
                exact htx
            have hbase' : ((List.lookup nm (uartPinsOf ls)).getD {}).rx ≠ "" ↔
                  (∃ l ∈ ls, uartRecRx nm l) := by
              rcases ih with ⟨hnone, hno⟩ | ⟨e, hsome, -, -, hrx⟩
              · rw [hnone]
                simp only [Option.getD_none]
                constructor
                · intro hc
                  exact absurd rfl hc
                · rintro ⟨l, hl, hr⟩
                  exact absurd hr.1 (hno l hl)
              · rw [hsome]
                exact hrx
            by_cases htxc : pyContains ((pySplit a).getD 1 "") "_TX" = true
            · rw [if_pos htxc]
              refine Or.inr ⟨_, lookup_dictInsert_self _ _ _,
                ⟨a, List.mem_append_right _ (List.mem_singleton_self a), hrec⟩, ?_, ?_⟩
              · constructor
                · intro _
                  exact ⟨a, List.mem_append_right _ (List.mem_singleton_self a),
                    hrec, htxc⟩
                · intro _
                  exact hpin
              · have hnotrx : ¬ uartRecRx nm a := fun hr =>
                  absurd (hr.2.1.symm.trans htxc) (by decide)
                exact hbase'.trans (hoextend _ hnotrx)
            · have hrxc : pyContains ((pySplit a).getD 1 "") "_RX" = true := by
                have h3' := h3
                unfold uartFuncMatches at h3'
                simp only [Bool.and_eq_true, Bool.or_eq_true] at h3'
                rcases h3'.2 with h | h
                · exact absurd h htxc
                · exact h
              rw [if_neg htxc, if_pos hrxc]
              have htxf : pyContains ((pySplit a).getD 1 "") "_TX" = false :=
                Bool.eq_false_iff.mpr htxc
              refine Or.inr ⟨_, lookup_dictInsert_self _ _ _,
                ⟨a, List.mem_append_right _ (List.mem_singleton_self a), hrec⟩, ?_, ?_⟩
              · have hnottx : ¬ uartRecTx nm a := fun hr => htxc hr.2
                exact hbase.trans (hoextend _ hnottx)
              · constructor
                · intro _
                  exact ⟨a, List.mem_append_right _ (List.mem_singleton_self a),
                    hrec, htxf, hrxc⟩
                · intro _
                  exact hpin
          · -- the line records a different name
            have hm : uartPinsStep (uartPinsOf ls) a =
                dictInsert (uartPinsOf ls)
                  (beforeLastUnderscore ((pySplit a).getD 1 ""))
                  (if pyContains ((pySplit a).getD 1 "") "_TX" = true then
                    { (List.lookup (beforeLastUnderscore ((pySplit a).getD 1 ""))
                        (uartPinsOf ls)).getD {} with tx := (pySplit a).getD 0 "" }
                  else if pyContains ((pySplit a).getD 1 "") "_RX" = true then
                    { (List.lookup (beforeLastUnderscore ((pySplit a).getD 1 ""))
                        (uartPinsOf ls)).getD {} with rx := (pySplit a).getD 0 "" }
                  else (List.lookup (beforeLastUnderscore ((pySplit a).getD 1 ""))
                        (uartPinsOf ls)).getD {}) := by
              simp only [uartPinsStep]
              rw [if_neg h1, if_neg h2, if_pos h3]
            rw [hm]
            exact uartInv_extend_skip
              (lookup_dictInsert_ne _ _ (fun hc => h4 hc.symm))
              (fun hr => h4 hr.2.2.2) ih
        · have hm : uartPinsStep (uartPinsOf ls) a = uartPinsOf ls := by
            simp only [uartPinsStep]
            rw [if_neg h1, if_neg h2, if_neg h3]
          rw [hm]
          exact uartInv_extend_skip rfl (fun hr => h3 hr.2.2.1) ih

/-- updateUart keeps the channel name and sets the has flags from the
uart_pins binding only. -/
theorem updateUart_flags (p : List (String × PinRec)) (n : List String) (c : UartDef) :
    (updateUart p n c).uart_name = c.uart_name ∧
    (updateUart p n c).has_tx =
      (match List.lookup c.uart_name p with
        | some e => e.tx != ""
        | none => c.has_tx) ∧
    (updateUart p n c).has_rx =
      (match List.lookup c.uart_name p with
        | some e => e.rx != ""
        | none => c.has_rx) := by
  unfold updateUart
  cases List.lookup c.uart_name p with
  | none =>
    by_cases h : c.is_usb = false ∧ c.is_empty = false
    · rw [if_pos h]
      exact ⟨rfl, rfl, rfl⟩
    · rw [if_neg h]
      exact ⟨rfl, rfl, rfl⟩
  | some e =>
    by_cases h : ({ c with has_tx := e.tx != "", has_rx := e.rx != "" } :
        UartDef).is_usb = false ∧ ({ c with has_tx := e.tx != "", has_rx := e.rx != "" } :
        UartDef).is_empty = false
    · rw [if_pos h]
      exact ⟨rfl, rfl, rfl⟩
    · rw [if_neg h]
      exact ⟨rfl, rfl, rfl⟩

/-- Conclusion of claim C10: channels never mentioned by a recording
pin line keep has_tx and has_rx true; a false flag forces a recording
line for the name with the matching direction never recorded. -/
def C10_concl (lines : List String) (b : Board) : Prop :=
  ∀ u ∈ b.uarts,
    ((∀ l ∈ lines, ¬ uartRecLine u.uart_name l) → u.has_tx = true ∧ u.has_rx = true) ∧
    (u.has_tx = false → (∃ l ∈ lines, uartRecLine u.uart_name l) ∧
      ∀ l ∈ lines, ¬ uartRecTx u.uart_name l) ∧
    (u.has_rx = false → (∃ l ∈ lines, uartRecLine u.uart_name l) ∧
      ∀ l ∈ lines, ¬ uartRecRx u.uart_name l)

/-- C10: after UART enrichment, has_tx and has_rx keep their default
true for every channel whose hardware name is recorded by no pin line
of the scan, and can be false only when the name is recorded by some
line but the matching direction never is. -/
theorem C10_uart_flags (bIds : List (String × Int)) (lines : List String) (b : Board)
    (h : parseBoardLines bIds lines = some b) : C10_concl lines b := by
  rcases uarts_structure h with ⟨cs, hdef, hmap⟩
  rw [C10_concl, hmap]
  intro u hu
  rcases List.mem_map.mp hu with ⟨c, hc, hrep⟩
  rcases hdef c hc with ⟨-, -, htxd, hrxd⟩
  rcases updateUart_flags (uartPinsOf lines) (nodmaOf lines) c with ⟨hname, htx, hrx⟩
  rw [← hrep]
  rw [hname, htx, hrx]
  rcases lookup_uartPinsOf c.uart_name lines with ⟨hnone, hno⟩ |
    ⟨e, hsome, hex, hetx, herx⟩
  · rw [hnone]
    refine ⟨fun _ => ⟨htxd, hrxd⟩, ?_, ?_⟩
    · intro hfalse
      exact absurd (htxd.symm.trans hfalse) (by decide)
    · intro hfalse
      exact absurd (hrxd.symm.trans hfalse) (by decide)
  · rw [hsome]
    refine ⟨?_, ?_, ?_⟩
    · intro hnorec
      rcases hex with ⟨l, hl, hr⟩
      exact absurd hr (hnorec l hl)
    · intro hfalse
      refine ⟨hex, ?_⟩
      intro l hl hr
      have hne : e.tx ≠ "" := hetx.mpr ⟨l, hl, hr⟩
      have : (e.tx != "") = true := bne_iff_ne.mpr hne
      exact absurd (this.symm.trans hfalse) (by decide)
    · intro hfalse
      refine ⟨hex, ?_⟩
      intro l hl hr
      have hne : e.rx ≠ "" := herx.mpr ⟨l, hl, hr⟩
      have : (e.rx != "") = true := bne_iff_ne.mpr hne
      exact absurd (this.symm.trans hfalse) (by decide)

/-- Witness input for C10: one channel with a TX pin line only. -/
def linesW10 : List String := ["SERIAL_ORDER USART1", "PA9 USART1_TX"]

/-- Witness board for C10. -/
def bW10 : Board := (parseBoardLines [] linesW10).getD {}

/-- Witness for C10. -/
theorem C10_uart_flags_witness :
    parseBoardLines [] linesW10 = some bW10 ∧ C10_concl linesW10 bW10 :=
  ⟨by decide, C10_uart_flags [] linesW10 bW10 (by decide)⟩

/-! Claim C9: noninterference of an inserted undef line. -/

/-- The whitespace splitter on a list free of whitespace yields the
accumulated token. -/
theorem wsTokensAux_nows :
    ∀ (l acc : List Char), (∀ c ∈ l, c.isWhitespace = false) →
      wsTokensAux l acc = if acc.reverse ++ l = [] then [] else [acc.reverse ++ l]
  | [], acc, _ => by
    unfold wsTokensAux
    by_cases h : acc.isEmpty
    · have hacc : acc = [] := List.isEmpty_iff.mp h
      subst hacc
      simp
    · have hne : acc ≠ [] := fun hc => h (List.isEmpty_iff.mpr hc)
      rw [if_neg h, List.append_nil,
        if_neg (fun hc => hne (List.reverse_eq_nil_iff.mp hc))]
  | c :: cs, acc, hno => by
    unfold wsTokensAux
    have hc : c.isWhitespace = false := hno c (List.mem_cons_self c cs)
    rw [if_neg (by simp [hc])]
    rw [wsTokensAux_nows cs (c :: acc) (fun x hx => hno x (List.mem_cons_of_mem c hx))]
    have he : (c :: acc).reverse ++ cs = acc.reverse ++ c :: cs := by simp
    rw [he]

/-- Dropping whitespace from a whitespace-free list is the identity. -/
theorem dropWhile_nows :
    ∀ (l : List Char), (∀ c ∈ l, c.isWhitespace = false) →
      l.dropWhile Char.isWhitespace = l
  | [], _ => rfl
  | c :: cs, h => by
    have hc : c.isWhitespace = false := h c (List.mem_cons_self c cs)
    rw [List.dropWhile_cons, if_neg (by simp [hc])]

/-- A list is a Boolean prefix of itself extended. -/
theorem isPrefixOf_append_self : ∀ (l t : List Char), l.isPrefixOf (l ++ t) = true
  | [], [] => rfl
  | [], _ :: _ => rfl
  | c :: cs, t => by
    show ((c == c) && cs.isPrefixOf (cs ++ t)) = true
    rw [beq_self_eq_true, Bool.true_and, isPrefixOf_append_self cs t]

/-- Stripping a whitespace-free string is the identity. -/
theorem pyStrip_nows {N : String} (hw : ∀ c ∈ N.data, c.isWhitespace = false) :
    pyStrip N = N := by
  have h1 : N.data.dropWhile Char.isWhitespace = N.data := dropWhile_nows N.data hw
  have h2 : N.data.reverse.dropWhile Char.isWhitespace = N.data.reverse :=
    dropWhile_nows N.data.reverse (fun c hc => hw c (List.mem_reverse.mp hc))
  simp only [pyStrip, stripData]
  rw [h1, h2, List.reverse_reverse]

/-- Whitespace split of an undef line with a solid argument. -/
theorem pySplit_undef {N : String} (hN : N ≠ "")
    (hw : ∀ c ∈ N.data, c.isWhitespace = false) :
    pySplit ("undef " ++ N) = ["undef", N] := by
  have hNd : N.data ≠ [] := fun hc => hN (congrArg String.mk hc)
  have hdata : ("undef " ++ N).data = 'u' :: 'n' :: 'd' :: 'e' :: 'f' :: ' ' :: N.data := rfl
  have hkey : wsTokensAux ('u' :: 'n' :: 'd' :: 'e' :: 'f' :: ' ' :: N.data) [] =
      ['u', 'n', 'd', 'e', 'f'] :: wsTokensAux N.data [] := rfl
  unfold pySplit
  rw [hdata, hkey, wsTokensAux_nows N.data [] hw]
  simp only [List.reverse_nil, List.nil_append]
  rw [if_neg hNd]
  rfl

/-- Single split of an undef line with a solid argument. -/
theorem pySplit1_undef {N : String} (hN : N ≠ "")
    (hw : ∀ c ∈ N.data, c.isWhitespace = false) :
    pySplit1 ("undef " ++ N) = ["undef", N] := by
  have hNd : N.data ≠ [] := fun hc => hN (congrArg String.mk hc)
  have hdata : ("undef " ++ N).data = 'u' :: 'n' :: 'd' :: 'e' :: 'f' :: ' ' :: N.data := rfl
  have hkey : pySplit1Data ('u' :: 'n' :: 'd' :: 'e' :: 'f' :: ' ' :: N.data) =
      if N.data.dropWhile Char.isWhitespace = [] then [['u', 'n', 'd', 'e', 'f']]
      else [['u', 'n', 'd', 'e', 'f'], N.data.dropWhile Char.isWhitespace] := rfl
  unfold pySplit1
  rw [hdata, hkey, dropWhile_nows N.data hw, if_neg hNd]
  rfl

/-- Once a stopper line is reached, later lines never affect the
header scan. -/
theorem headerScan_stopper :
    ∀ (pre : List String), (∃ l ∈ pre, pyStartsWith l "#" = false ∧ l ≠ "") →
      ∀ (xs ys : List String), headerScan (pre ++ xs) = headerScan (pre ++ ys)
  | [], h, _, _ => absurd h (by simp)
  | l :: ls, h, xs, ys => by
    simp only [List.cons_append, headerScan]
    by_cases hc : pyStartsWith l "#" = true
    · rw [if_pos hc, if_pos hc]
      have hrest : ∃ x ∈ ls, pyStartsWith x "#" = false ∧ x ≠ "" := by
        rcases h with ⟨l', hl', hs⟩
        rcases List.mem_cons.mp hl' with rfl | hmem
        · exact absurd (hs.1.symm.trans hc) (by decide)
        · exact ⟨l', hmem, hs⟩
      exact congrArg (fun t => pyStrip (dropLeadingHashes l) :: t)
        (headerScan_stopper ls hrest xs ys)
    · rw [if_neg hc, if_neg hc]
      by_cases hne : l ≠ ""
      · rw [if_pos hne, if_pos hne]
      · rw [if_neg hne, if_neg hne]
        have hrest : ∃ x ∈ ls, pyStartsWith x "#" = false ∧ x ≠ "" := by
          rcases h with ⟨l', hl', hs⟩
          rcases List.mem_cons.mp hl' with rfl | hmem
          · exact absurd (not_not.mp hne) hs.2
          · exact ⟨l', hmem, hs⟩
        exact headerScan_stopper ls hrest xs ys

/-- The undef flag only matters to the CAN arm. -/
theorem applyAct_undefs_irrel (bIds : List (String × Int)) (b : Board) (k₁ k₂ : Bool)
    (parts : List String) (line : String) (act : LineAct) (hact : act ≠ LineAct.can) :
    applyAct bIds b k₁ parts line act = applyAct bIds b k₂ parts line act := by
  cases act <;> first | rfl | exact absurd rfl hact

/-- Membership test under a membership-equivalent set extension. -/
theorem contains_congr {u₁ u₂ : List String} {N : String}
    (hm : ∀ x, x ∈ u₂ ↔ x ∈ u₁ ∨ x = N) {k : String} (hk : k ≠ N) :
    u₂.contains k = u₁.contains k := by
  cases h1c : u₁.contains k with
  | true =>
    have hmem : k ∈ u₁ := List.elem_iff.mp (h1c : u₁.elem k = true)
    exact (List.elem_iff.mpr ((hm k).mpr (Or.inl hmem)) : u₂.elem k = true)
  | false =>
    cases h2c : u₂.contains k with
    | false => rfl
    | true =>
      have hmem2 : k ∈ u₂ := List.elem_iff.mp (h2c : u₂.elem k = true)
      rcases (hm k).mp hmem2 with hmem1 | heq
      · have h1c' : u₁.contains k = true :=
          (List.elem_iff.mpr hmem1 : u₁.elem k = true)
        exact absurd (h1c.symm.trans h1c') (by decide)
      · exact absurd heq hk

/-- Simulation relation between the parse states of the two runs: the
run with the extra undef line carries the same board and the undef set
enlarged by exactly N. -/
def undefShift (N : String) (o₁ o₂ : Option ParseSt) : Prop :=
  (o₁ = none ∧ o₂ = none) ∨
  (∃ st₁ st₂ : ParseSt, o₁ = some st₁ ∧ o₂ = some st₂ ∧ st₁.board = st₂.board ∧
    ∀ x : String, x ∈ st₂.undefs ↔ x ∈ st₁.undefs ∨ x = N)

/-- One parse step preserves the simulation when the line is no CAN
pin keyword line led by N. -/
theorem parseStep_undefShift {N : String} {bIds : List (String × Int)}
    {o₁ o₂ : Option ParseSt} (h : undefShift N o₁ o₂) (l : String)
    (hl : dispatch (pySplit l) l = LineAct.can → (pySplit l).headD "" ≠ N) :
    undefShift N (parseStep bIds o₁ l) (parseStep bIds o₂ l) := by
  rcases h with ⟨h1, h2⟩ | ⟨st₁, st₂, h1, h2, hb, hm⟩
  · subst h1; subst h2
    exact Or.inl ⟨rfl, rfl⟩
  · subst h1; subst h2
    simp only [parseStep]
    by_cases hg1 : l = "" ∨ pyStartsWith l "#" = true
    · rw [if_pos hg1, if_pos hg1]
      exact Or.inr ⟨st₁, st₂, rfl, rfl, hb, hm⟩
    · rw [if_neg hg1, if_neg hg1]
      by_cases hg2 : pyStartsWith l "undef " = true
      · rw [if_pos hg2, if_pos hg2]
        cases hsp : pySplit1 l with
        | nil => exact Or.inl ⟨rfl, rfl⟩
        | cons a t =>
          cases t with
          | nil => exact Or.inl ⟨rfl, rfl⟩
          | cons n t2 =>
            refine Or.inr ⟨_, _, rfl, rfl, hb, ?_⟩
            intro x
            show x ∈ pyStrip n :: st₂.undefs ↔ x ∈ pyStrip n :: st₁.undefs ∨ x = N
            constructor
            · intro hx
              rcases List.mem_cons.mp hx with rfl | hx'
              · exact Or.inl (List.mem_cons_self _ _)
              · rcases (hm x).mp hx' with hmm | hmm
                · exact Or.inl (List.mem_cons_of_mem _ hmm)
                · exact Or.inr hmm
            · rintro (hx | rfl)
              · rcases List.mem_cons.mp hx with rfl | hx'
                · exact List.mem_cons_self _ _
                · exact List.mem_cons_of_mem _ ((hm x).mpr (Or.inl hx'))
              · exact List.mem_cons_of_mem _ ((hm x).mpr (Or.inr rfl))
      · rw [if_neg hg2, if_neg hg2]
        cases hsp : pySplit l with
        | nil => exact Or.inr ⟨st₁, st₂, rfl, rfl, hb, hm⟩
        | cons p ps =>
          rw [hsp] at hl
          refine Or.inr ⟨_, _, rfl, rfl, ?_, hm⟩
          show process_line bIds st₁.board st₁.undefs (p :: ps) l =
            process_line bIds st₂.board st₂.undefs (p :: ps) l
          rw [hb]
          unfold process_line
          by_cases hact : dispatch (p :: ps) l = LineAct.can
          · rw [contains_congr hm (hl hact)]
          · exact applyAct_undefs_irrel bIds st₂.board _ _ (p :: ps) l
              (dispatch (p :: ps) l) hact

/-- The whole remaining fold preserves the simulation. -/
theorem foldl_parseStep_undefShift {N : String} (bIds : List (String × Int)) :
    ∀ (post : List String),
      (∀ l ∈ post, dispatch (pySplit l) l = LineAct.can → (pySplit l).headD "" ≠ N) →
      ∀ (o₁ o₂ : Option ParseSt), undefShift N o₁ o₂ →
        undefShift N (post.foldl (parseStep bIds) o₁) (post.foldl (parseStep bIds) o₂)
  | [], _, _, _, h => h
  | l :: ls, hpost, o₁, o₂, h => by
    rw [List.foldl_cons, List.foldl_cons]
    exact foldl_parseStep_undefShift bIds ls
      (fun x hx => hpost x (List.mem_cons_of_mem l hx)) _ _
      (parseStep_undefShift h l (hpost l (List.mem_cons_self l ls)))

/-- A line without RCIN never affects the RC scan. -/
theorem scanRc_insert {u : String} (hu : pyContains u "RCIN" = false) :
    ∀ (pre post : List String), scanRc (pre ++ u :: post) = scanRc (pre ++ post)
  | [], post => by
    show scanRc (u :: post) = scanRc post
    simp only [scanRc]
    by_cases h1 : u = "" ∨ pyStartsWith u "#" = true
    · rw [if_pos h1]
    · rw [if_neg h1,
        if_neg (fun hc => absurd (hu.symm.trans hc.1) (by decide) : ¬_),
        if_neg (fun hc => absurd (hu.symm.trans hc.1) (by decide) : ¬_)]
  | l :: ls, post => by
    show scanRc (l :: (ls ++ u :: post)) = scanRc (l :: (ls ++ post))
    simp only [scanRc]
    by_cases h1 : l = "" ∨ pyStartsWith l "#" = true
    · rw [if_pos h1, if_pos h1]
      exact scanRc_insert hu ls post
    · rw [if_neg h1, if_neg h1]
      by_cases h2 : pyContains l "RCIN" = true ∧ pyContains l "TIM" = true ∧
          3 ≤ (pySplit l).length
      · rw [if_pos h2, if_pos h2]
      · rw [if_neg h2, if_neg h2]
        by_cases h3 : pyContains l "RCIN" = true ∧
            (pyContains l "USART" = true ∨ pyContains l "UART" = true)
        · rw [if_pos h3, if_pos h3]
        · rw [if_neg h3, if_neg h3]
          exact scanRc_insert hu ls post

/-- C9 (amended): inserting an undef line for a solid name N after a
header stopper changes nothing, provided the undef line itself evades
the raw-line scans (no RCIN and no NODMA substring, and N is no
UART-family direction token) and N leads no later CAN pin keyword
line.  Without the scan-evasion conditions the claim is false: the
post-processing passes rescan the raw lines, undef line included. -/
theorem C9_undef_noninterference (bIds : List (String × Int)) (pre post : List String)
    (N : String) (hN : N ≠ "") (hw : ∀ c ∈ N.data, c.isWhitespace = false)
    (hstop : ∃ l ∈ pre, pyStartsWith l "#" = false ∧ l ≠ "")
    (hrc : pyContains ("undef " ++ N) "RCIN" = false)
    (hnd : pyContains ("undef " ++ N) "NODMA" = false)
    (hfm : uartFuncMatches N = false)
    (hcan : ∀ l ∈ post, dispatch (pySplit l) l = LineAct.can → (pySplit l).headD "" ≠ N) :
    parseBoardLines bIds (pre ++ ("undef " ++ N) :: post) =
      parseBoardLines bIds (pre ++ post) := by
  have hsplit : pySplit ("undef " ++ N) = ["undef", N] := pySplit_undef hN hw
  have hsplit1 : pySplit1 ("undef " ++ N) = ["undef", N] := pySplit1_undef hN hw
  have hstrip : pyStrip N = N := pyStrip_nows hw
  have hune : ("undef " ++ N) ≠ "" := by
    intro hc
    have h6 : ("undef " ++ N).data = 'u' :: 'n' :: 'd' :: 'e' :: 'f' :: ' ' :: N.data := rfl
    rw [hc] at h6
    exact List.noConfusion h6
  have hhash : pyStartsWith ("undef " ++ N) "#" = false := rfl
  have hundef : pyStartsWith ("undef " ++ N) "undef " = true := by
    show ("undef ".data.isPrefixOf ("undef " ++ N).data) = true
    have hd : ("undef " ++ N).data = "undef ".data ++ N.data := rfl
    rw [hd]
    exact isPrefixOf_append_self _ _
  have hheader : headerOf (pre ++ ("undef " ++ N) :: post) = headerOf (pre ++ post) := by
    unfold headerOf
    rw [headerScan_stopper pre hstop (("undef " ++ N) :: post) post]
  have hstep_u : ∀ st : ParseSt, parseStep bIds (some st) ("undef " ++ N) =
      some { st with undefs := N :: st.undefs } := by
    intro st
    simp only [parseStep]
    rw [if_neg (by simp [hune, hhash]), if_pos hundef, hsplit1]
    show some { st with undefs := pyStrip N :: st.undefs } =
      some { st with undefs := N :: st.undefs }
    rw [hstrip]
  have hid_pins : ∀ m : List (String × PinRec), uartPinsStep m ("undef " ++ N) = m := by
    intro m
    have hlen2 : ¬(["undef", N].length < 2) := by simp
    have hfm' : ¬(uartFuncMatches (["undef", N].getD 1 "") = true) := fun hc =>
      absurd (hfm.symm.trans hc) (by decide)
    simp only [uartPinsStep]
    rw [if_neg (by simp [hune, hhash]), hsplit, if_neg hlen2, if_neg hfm']
  have hid_nodma : ∀ s : List String, nodmaStep s ("undef " ++ N) = s := by
    intro s
    simp only [nodmaStep]
    rw [if_neg (by simp [hune, hhash]), if_neg (by simp [hnd])]
  have h_pins : uartPinsOf (pre ++ ("undef " ++ N) :: post) = uartPinsOf (pre ++ post) := by
    unfold uartPinsOf
    rw [List.foldl_append, List.foldl_append, List.foldl_cons, hid_pins]
  have h_nodma : nodmaOf (pre ++ ("undef " ++ N) :: post) = nodmaOf (pre ++ post) := by
    unfold nodmaOf
    rw [List.foldl_append, List.foldl_append, List.foldl_cons, hid_nodma]
  have h_scan : scanRc (pre ++ ("undef " ++ N) :: post) = scanRc (pre ++ post) :=
    scanRc_insert hrc pre post
  have h_rc : ∀ d : List (String × String),
      rcInputOf d (pre ++ ("undef " ++ N) :: post) = rcInputOf d (pre ++ post) := by
    intro d
    unfold rcInputOf
    rw [h_scan]
  have hpp : ∀ b : Board, postProcess bIds (pre ++ ("undef " ++ N) :: post) b =
      postProcess bIds (pre ++ post) b := by
    intro b
    simp only [postProcess]
    rw [h_rc, h_pins, h_nodma]
  unfold parseBoardLines
  rw [hheader, List.foldl_append, List.foldl_append, List.foldl_cons]
  have hbase : undefShift N
      (pre.foldl (parseStep bIds)
        (some { board := { header_comments := headerOf (pre ++ post) }, undefs := [] }))
      (parseStep bIds
        (pre.foldl (parseStep bIds)
          (some { board := { header_comments := headerOf (pre ++ post) }, undefs := [] }))
        ("undef " ++ N)) := by
    cases hmid : pre.foldl (parseStep bIds)
        (some { board := { header_comments := headerOf (pre ++ post) }, undefs := [] }) with
    | none => exact Or.inl ⟨rfl, rfl⟩
    | some st =>
      rw [hstep_u st]
      refine Or.inr ⟨st, _, rfl, rfl, rfl, ?_⟩
      intro x
      show x ∈ N :: st.undefs ↔ x ∈ st.undefs ∨ x = N
      constructor
      · intro hx
        rcases List.mem_cons.mp hx with rfl | hx'
        · exact Or.inr rfl
        · exact Or.inl hx'
      · rintro (hx | rfl)
        · exact List.mem_cons_of_mem _ hx
        · exact List.mem_cons_self _ _
  rcases foldl_parseStep_undefShift bIds post hcan
      (pre.foldl (parseStep bIds)
        (some { board := { header_comments := headerOf (pre ++ post) }, undefs := [] }))
      (parseStep bIds
        (pre.foldl (parseStep bIds)
          (some { board := { header_comments := headerOf (pre ++ post) }, undefs := [] }))
        ("undef " ++ N)) hbase with
    ⟨k1, k2⟩ | ⟨st₁, st₂, k1, k2, kb, km⟩
  · rw [k1, k2]
  · rw [k1, k2]
    show some (postProcess bIds (pre ++ ("undef " ++ N) :: post) st₂.board) =
      some (postProcess bIds (pre ++ post) st₁.board)
    rw [← kb, hpp]

/-- C9 counterexample: the claim's only side condition is about later
CAN pin keyword lines, but the post-processing RC scan reads the raw
lines and matches the inserted undef line itself: inserting undef
RCIN_UART into a sequence with no CAN lines at all flips the RC input
type to uart. -/
theorem C9_undef_noninterference_counterexample :
    (∀ l ∈ ([] : List String),
      dispatch (pySplit l) l = LineAct.can → (pySplit l).headD "" ≠ "RCIN_UART") ∧
    ((parseBoardLines [] ["undef RCIN_UART"]).map fun b => b.rc_input.input_type) =
      some "uart" ∧
    ((parseBoardLines [] ([] : List String)).map fun b => b.rc_input.input_type) =
      some "" ∧
    parseBoardLines [] ["undef RCIN_UART"] ≠ parseBoardLines [] ([] : List String) := by
  refine ⟨fun l hl => absurd hl (List.not_mem_nil l), by decide, by decide, by decide⟩

/-- Witness prefix for C9: a stopper line. -/
def preW9 : List String := ["MCU STM32H7xx STM32H743xx"]

/-- Witness suffix for C9. -/
def postW9 : List String := ["SDIO"]

/-- Witness undef name for C9. -/
def NW9 : String := "HAL_C9_FLAG"

/-- Witness for the amended C9. -/
theorem C9_undef_noninterference_witness :
    (NW9 ≠ "" ∧ (∀ c ∈ NW9.data, c.isWhitespace = false) ∧
      (∃ l ∈ preW9, pyStartsWith l "#" = false ∧ l ≠ "") ∧
      pyContains ("undef " ++ NW9) "RCIN" = false ∧
      pyContains ("undef " ++ NW9) "NODMA" = false ∧
      uartFuncMatches NW9 = false ∧
      (∀ l ∈ postW9, dispatch (pySplit l) l = LineAct.can → (pySplit l).headD "" ≠ NW9)) ∧
    parseBoardLines [] (preW9 ++ ("undef " ++ NW9) :: postW9) =
      parseBoardLines [] (preW9 ++ postW9) :=
  ⟨⟨by decide, by decide, by decide, by decide, by decide, by decide, by decide⟩,
    C9_undef_noninterference [] preW9 postW9 NW9 (by decide) (by decide) (by decide)
      (by decide) (by decide) (by decide) (by decide)⟩

end Hwdef
